import Mathlib

/-!
Verification of the super-rss feed plugin.

We give a shallow embedding of the plugin's core pipeline:
the item normalizer (`feedProcessor.ts`), the template engine and
persistence layer (`fileSaver.ts`), the image handler
(`imageHandler.ts`) and the orchestrator (`main.ts`).

JavaScript strings are modelled as `List Char` (`Str`).  JavaScript
regex-based `String.replace` calls are modelled by explicit scanner
functions that mirror the leftmost, non-overlapping semantics of the
`/g`-replaces used in the source.  Whole-code-unit semantics
(UTF-16 surrogate pairs) are not modelled; all inputs of interest live
in the basic plane where `List Char` agrees with code-unit strings.

External host builtins (the JavaScript `Date` engine, `requestUrl`,
the Obsidian vault) are modelled through an explicit environment
record `Env` and an explicit vault state `VaultState`.
-/

set_option maxRecDepth 20000

namespace SuperRss

abbrev Str := List Char

/-- Membership in the JavaScript regex class backslash-s (the class used
by the source's whitespace-collapsing replaces). -/
def jsIsSpace (c : Char) : Bool :=
  let n := c.toNat
  n = 32 || n = 9 || n = 10 || n = 11 || n = 12 || n = 13 || n = 160 ||
  n = 0x1680 || (0x2000 ≤ n && n ≤ 0x200A) || n = 0x2028 || n = 0x2029 ||
  n = 0x202F || n = 0x205F || n = 0x3000 || n = 0xFEFF

def isAsciiDigit (c : Char) : Bool :=
  48 ≤ c.toNat && c.toNat ≤ 57

def isHexDigit (c : Char) : Bool :=
  isAsciiDigit c || (97 ≤ c.toNat && c.toNat ≤ 102) || (65 ≤ c.toNat && c.toNat ≤ 70)

/-- Characters of the regex class `[a-zA-Z0-9_]` used by the generic
placeholder pass of the template engine. -/
def isIdentChar (c : Char) : Bool :=
  isAsciiDigit c || (97 ≤ c.toNat && c.toNat ≤ 122) || (65 ≤ c.toNat && c.toNat ≤ 90) ||
  c.toNat = 95

/-- Case-insensitive character comparison (ASCII case folding, which is
what the JavaScript `/i` regex flag performs on the literal patterns
appearing in the source). -/
def ciCharEq (a b : Char) : Bool :=
  a.toLower = b.toLower

/-- Case-insensitive `isPrefixOf`. -/
def ciStartsWith : Str → Str → Bool
  | [], _ => true
  | _ :: _, [] => false
  | p :: ps, c :: cs => ciCharEq p c && ciStartsWith ps cs

/-- Substring containment, mirroring `String.prototype.includes`. -/
def containsSub (pat : Str) : Str → Bool
  | [] => pat.isEmpty
  | c :: cs => pat.isPrefixOf (c :: cs) || containsSub pat cs

/-- Fuel-driven worker for `replaceAll` (JavaScript
`s.replace(/literal/g, rep)`): leftmost, non-overlapping, and the
replacement text is not rescanned within one call. -/
def rasGo (pat rep : Str) : Nat → Str → Str
  | 0, s => s
  | _ + 1, [] => []
  | fuel + 1, c :: cs =>
    if pat ≠ [] && pat.isPrefixOf (c :: cs) then
      rep ++ rasGo pat rep fuel ((c :: cs).drop pat.length)
    else
      c :: rasGo pat rep fuel cs

/-- JavaScript `s.replace(pat-with-g-flag, rep)` for a literal pattern. -/
def replaceAll (s pat rep : Str) : Str :=
  rasGo pat rep s.length s

/-- Fuel-driven worker for the case-insensitive `replaceAll`
(patterns with the `/gi` flags in the source). -/
def rasGoCI (pat rep : Str) : Nat → Str → Str
  | 0, s => s
  | _ + 1, [] => []
  | fuel + 1, c :: cs =>
    if pat ≠ [] && ciStartsWith pat (c :: cs) then
      rep ++ rasGoCI pat rep fuel ((c :: cs).drop pat.length)
    else
      c :: rasGoCI pat rep fuel cs

/-- Case-insensitive variant of `replaceAll`. -/
def replaceAllCI (s pat rep : Str) : Str :=
  rasGoCI pat rep s.length s

/-- Worker for whitespace-run collapsing: `prevSpace` records whether the
previous character was part of a whitespace run already emitted. -/
def cwGo (rep : Char) : Bool → Str → Str
  | _, [] => []
  | prevSpace, c :: cs =>
    if jsIsSpace c then
      if prevSpace then cwGo rep true cs else rep :: cwGo rep true cs
    else
      c :: cwGo rep false cs

/-- JavaScript `s.replace(regex-backslash-s-plus-g, rep)`: every maximal
whitespace run becomes a single copy of `rep`. -/
def collapseWs (rep : Char) (s : Str) : Str :=
  cwGo rep false s

/-- JavaScript `String.prototype.trim` (also used for the `.trim()`
calls of the source; JS trims the same class as backslash-s plus line
terminators, all of which `jsIsSpace` covers). -/
def jsTrim (s : Str) : Str :=
  ((s.dropWhile jsIsSpace).reverse.dropWhile jsIsSpace).reverse

/-- Scan to the first closing angle bracket; returns the remainder after
it, or none when the text has no closing bracket. -/
def dropToGt : Str → Option Str
  | [] => none
  | c :: cs => if c = '>' then some cs else dropToGt cs

/-- Fuel-driven worker for tag stripping (`s.replace(/<[^>]*>/g, '')`):
a match starts at a less-than sign and runs to the first following
greater-than sign; a less-than sign with no closing bracket is kept. -/
def stGo : Nat → Str → Str
  | 0, s => s
  | _ + 1, [] => []
  | fuel + 1, c :: cs =>
    if c = '<' then
      match dropToGt cs with
      | some rest => stGo fuel rest
      | none => c :: stGo fuel cs
    else
      c :: stGo fuel cs

/-- JavaScript `s.replace(/<[^>]*>/g, '')`. -/
def stripTags (s : Str) : Str :=
  stGo s.length s

/-- Numeric value of a list of ASCII decimal digits. -/
def digitsToNat : Str → Nat → Nat
  | [], acc => acc
  | c :: cs, acc => digitsToNat cs (acc * 10 + (c.toNat - 48))

/-- Numeric value of a list of ASCII hex digits. -/
def hexToNat : Str → Nat → Nat
  | [], acc => acc
  | c :: cs, acc =>
    let d := if isAsciiDigit c then c.toNat - 48
             else if 97 ≤ c.toNat then c.toNat - 87 else c.toNat - 55
    hexToNat cs (acc * 16 + d)

/-- JavaScript `String.fromCharCode`: the code is reduced modulo 2^16.
Lone-surrogate outputs (an invalid scalar value in Lean) degrade to the
null character; no claim depends on those degenerate inputs. -/
def jsFromCharCode (n : Nat) : Char :=
  Char.ofNat (n % 65536)

/-- Fuel-driven worker for the decimal character-reference replace
(`/&#(\d+);/g` with a `fromCharCode` callback). -/
def decNumGo : Nat → Str → Str
  | 0, s => s
  | _ + 1, [] => []
  | fuel + 1, c :: cs =>
    if c = '&' then
      match cs with
      | '#' :: rest =>
        let ds := rest.takeWhile isAsciiDigit
        let after := rest.dropWhile isAsciiDigit
        match ds, after with
        | _ :: _, ';' :: rest2 =>
          jsFromCharCode (digitsToNat ds 0) :: decNumGo fuel rest2
        | _, _ => c :: decNumGo fuel cs
      | _ => c :: decNumGo fuel cs
    else
      c :: decNumGo fuel cs

/-- Fuel-driven worker for the hex character-reference replace
(`/&#x([0-9a-fA-F]+);/g`, lowercase x only, as in the source). -/
def hexNumGo : Nat → Str → Str
  | 0, s => s
  | _ + 1, [] => []
  | fuel + 1, c :: cs =>
    if c = '&' then
      match cs with
      | '#' :: 'x' :: rest =>
        let ds := rest.takeWhile isHexDigit
        let after := rest.dropWhile isHexDigit
        match ds, after with
        | _ :: _, ';' :: rest2 =>
          jsFromCharCode (hexToNat ds 0) :: hexNumGo fuel rest2
        | _, _ => c :: hexNumGo fuel cs
      | _ => c :: hexNumGo fuel cs
    else
      c :: hexNumGo fuel cs

/-- `decodeHtmlEntities` of feedProcessor.ts: the chained replaces in
source order (amp, lt, gt, quot, decimal refs, hex refs, apos). -/
def decodeHtmlEntities (s : Str) : Str :=
  let s1 := replaceAll s (("&amp;").toList) (("&").toList)
  let s2 := replaceAll s1 (("&lt;").toList) (("<").toList)
  let s3 := replaceAll s2 (("&gt;").toList) ((">").toList)
  let s4 := replaceAll s3 (("&quot;").toList) (("\"").toList)
  let s5 := decNumGo s4.length s4
  let s6 := hexNumGo s5.length s5
  replaceAll s6 (("&apos;").toList) (("'").toList)

/-- Membership in the `INVALID_FILENAME_CHARS` regex class of
feedProcessor.ts. -/
def isInvalidFileNameChar (c : Char) : Bool :=
  c = '\\' || c = '/' || c = ':' || c = '*' || c = '?' || c = '"' ||
  c = '<' || c = '>' || c = '|' || c = '#' || c = '[' || c = ']' || c = '^'

/-- Predicate of the `[\s-]` class used when trimming file-name edges. -/
def isSpaceOrDash (c : Char) : Bool :=
  jsIsSpace c || c = '-'

/-- `sanitizeFileName` of feedProcessor.ts. -/
def sanitizeFileName (name : Str) : Str :=
  let d := decodeHtmlEntities name
  let replaced := d.flatMap (fun c => if isInvalidFileNameChar c then (" - ").toList else [c])
  let collapsed := collapseWs ' ' replaced
  let trimmed := ((collapsed.dropWhile isSpaceOrDash).reverse.dropWhile isSpaceOrDash).reverse
  trimmed.take 200

/-- `processDescription` of feedProcessor.ts, specialised to string
input (the shape the claims quantify over): a plain string passes
through unchanged. -/
def processDescription (raw : Str) : Str := raw

/-- `processDescriptionShort` of feedProcessor.ts: strip tags, collapse
whitespace, trim, and hard-truncate at 277 characters plus an ellipsis
when the stripped text is longer than 280 characters. -/
def processDescriptionShort (raw : Str) : Str :=
  let full := processDescription raw
  if full = [] then []
  else
    let stripped := jsTrim (collapseWs ' ' (stripTags full))
    if stripped.length > 280 then stripped.take 277 ++ ("...").toList else stripped

/-! Data model (interfaces of main.ts). The FeedItem interface declares
every field as a plain string (categories as a string array), so the
nullish-coalescing fallbacks of the template engine are identities and
are noted where they occur. -/

structure FeedItem where
  title : Str
  link : Str
  content : Str
  description : Str
  descriptionShort : Str
  author : Str
  pubDate : Str
  imageUrl : Str
  categories : List Str
deriving DecidableEq, Repr

/-- Result of the host `requestUrl` builtin: HTTP status plus response
headers as key-value pairs. -/
structure RequestResp where
  status : Nat
  headers : List (Str × Str)

/-- Outcome of one feed's fetch-and-normalize step
(`fetchAndExtract` plus `processItems`, both suspending on the
network): the call may throw, may produce a nullish result, or yields
the normalized item list. -/
inductive FetchOutcome where
  | thrown
  | nullish
  | items (xs : List FeedItem)
deriving DecidableEq

/-- External host builtins, passed explicitly: the clock
(`Date.now()`), the timezone offset in milliseconds
(`getTimezoneOffset() * 60000`), the JavaScript date parser
(`Date.parse` / `new Date(string)`, `none` meaning NaN), the ISO
formatter (`Date.prototype.toISOString`), and the network
(`requestUrl`, `none` meaning the call threw). -/
structure Env where
  nowMs : Int
  tzOffsetMs : Int
  jsParseDate : Str → Option Int
  jsToISO : Int → Str
  request : Str → Option RequestResp
  attachmentConfig : Option Str
  fetchItems : Str → FetchOutcome

/-- `toLocalISOString` of fileSaver.ts: shift by the timezone offset,
format with the host ISO formatter, and keep the part before the first
dot (dropping milliseconds and the timezone suffix). -/
def toLocalISOString (env : Env) (t : Int) : Str :=
  (env.jsToISO (t - env.tzOffsetMs)).takeWhile (fun c => c ≠ '.')

/-! Template engine (fileSaver.ts). -/

/-- Splits off the first line: the characters before the first newline,
plus the remainder after that newline when one exists. -/
def breakLine : Str → Str × Option Str
  | [] => ([], none)
  | c :: cs =>
    if c = '\n' then ([], some cs)
    else
      let r := breakLine cs
      (c :: r.1, r.2)

/-- Fuel-driven worker of the image-line removal replace
(`template.replace(/^.*\x7b\x7bimage\x7d\x7d.*\n?/gm, '')`): each line
containing the image token is removed together with its newline; other
lines pass through unchanged. -/
def rilGo (tok : Str) : Nat → Str → Str
  | 0, s => s
  | fuel + 1, s =>
    match breakLine s with
    | (line, none) => if containsSub tok line then [] else line
    | (line, some rest) =>
      (if containsSub tok line then [] else line ++ ['\n']) ++ rilGo tok fuel rest

/-- The image placeholder literal. -/
def imageTok : Str := ("\x7b\x7bimage\x7d\x7d").toList

/-- Image-line removal at full fuel. -/
def removeImageLines (tok : Str) (s : Str) : Str :=
  rilGo tok (s.length + 1) s

/-- `prepareTemplate` of fileSaver.ts. -/
def prepareTemplate (template : Str) (item : FeedItem) : Str :=
  if item.imageUrl = [] then removeImageLines imageTok template else template

/-- `formatImageForFrontmatter` of fileSaver.ts. -/
def formatImageForFrontmatter (imageUrl : Str) : Str :=
  if imageUrl = [] then []
  else if (("[[").toList).isPrefixOf imageUrl then '"' :: (imageUrl ++ ['"'])
  else imageUrl

/-- `formatImageForContent` of fileSaver.ts. -/
def formatImageForContent (imageUrl : Str) : Str :=
  if imageUrl = [] then []
  else if (("[[").toList).isPrefixOf imageUrl then '!' :: imageUrl
  else ("![](").toList ++ imageUrl ++ (")").toList

/-- `escapeYamlValue` of fileSaver.ts, for string values (the
boolean/number branches never fire for the string-typed FeedItem
fields): backslash-escape every double quote. -/
def escapeYamlValue (s : Str) : Str :=
  s.flatMap (fun c => if c = '"' then ['\\', '"'] else [c])

def strToLower (s : Str) : Str := s.map Char.toLower

/-- `KNOWN_PLACEHOLDERS` of fileSaver.ts. -/
def knownPlaceholders : List Str :=
  [("title").toList, ("link").toList, ("snippet").toList, ("image").toList,
   ("datepub").toList, ("datesaved").toList, ("content").toList,
   ("feedname").toList, ("tags").toList, ("author").toList]

/-- Values reachable through dynamic field access `(item as any)[key]`. -/
inductive JsVal where
  | str (v : Str)
  | arr (vs : List Str)

/-- Case-sensitive dynamic field lookup on a FeedItem. -/
def itemField (item : FeedItem) (key : Str) : Option JsVal :=
  if key = ("title").toList then some (JsVal.str item.title)
  else if key = ("link").toList then some (JsVal.str item.link)
  else if key = ("content").toList then some (JsVal.str item.content)
  else if key = ("description").toList then some (JsVal.str item.description)
  else if key = ("descriptionShort").toList then some (JsVal.str item.descriptionShort)
  else if key = ("author").toList then some (JsVal.str item.author)
  else if key = ("pubDate").toList then some (JsVal.str item.pubDate)
  else if key = ("imageUrl").toList then some (JsVal.str item.imageUrl)
  else if key = ("categories").toList then some (JsVal.arr item.categories)
  else none

/-- Attempts to match the generic-pass pattern
(open braces, optional spaces, an identifier, optional spaces, close
braces) at the head of the text, returning the identifier and the text
after the match. -/
def tryMatchToken (s : Str) : Option (Str × Str) :=
  if (("\x7b\x7b").toList).isPrefixOf s then
    let s1 := s.drop 2
    let s2 := s1.dropWhile jsIsSpace
    let ident := s2.takeWhile isIdentChar
    let s3 := s2.dropWhile isIdentChar
    let s4 := s3.dropWhile jsIsSpace
    if ident ≠ [] && (("\x7d\x7d").toList).isPrefixOf s4 then some (ident, s4.drop 2)
    else none
  else none

/-- Replacement text of the generic pass: known placeholders (matched
case-insensitively) vanish, unknown keys resolve against the item by
exact name; arrays join their YAML-escaped elements with comma-space. -/
def genericReplacement (item : FeedItem) (isYaml : Bool) (key : Str) : Str :=
  if knownPlaceholders.contains (strToLower key) then []
  else
    match itemField item key with
    | none => []
    | some (JsVal.str v) => if isYaml then escapeYamlValue v else v
    | some (JsVal.arr vs) => List.intercalate ((", ").toList) (vs.map escapeYamlValue)

/-- Fuel-driven worker of the generic placeholder pass. -/
def gpGo (item : FeedItem) (isYaml : Bool) : Nat → Str → Str
  | 0, s => s
  | _ + 1, [] => []
  | fuel + 1, c :: cs =>
    match tryMatchToken (c :: cs) with
    | some (key, rest) => genericReplacement item isYaml key ++ gpGo item isYaml fuel rest
    | none => c :: gpGo item isYaml fuel cs

/-- Hashtag rendering for the tags placeholder: each category becomes a
hash sign plus the category with whitespace runs replaced by hyphens,
all joined by single spaces. -/
def tagsOf (cats : List Str) : Str :=
  List.intercalate [' '] (cats.map (fun c => '#' :: collapseWs '-' c))

def tokAuthor : Str := ("\x7b\x7bauthor\x7d\x7d").toList

def tokFeedname : Str := ("\x7b\x7bfeedname\x7d\x7d").toList

def tokTitle : Str := ("\x7b\x7btitle\x7d\x7d").toList

def tokLink : Str := ("\x7b\x7blink\x7d\x7d").toList

def tokSnippet : Str := ("\x7b\x7bsnippet\x7d\x7d").toList

def tokDatepub : Str := ("\x7b\x7bdatepub\x7d\x7d").toList

def tokDatesaved : Str := ("\x7b\x7bdatesaved\x7d\x7d").toList

def tokContent : Str := ("\x7b\x7bcontent\x7d\x7d").toList

def tokHashTags : Str := ("\x7b\x7b#tags\x7d\x7d").toList

/-- Wraps a string in double quotes. -/
def quoted (s : Str) : Str := '"' :: (s ++ ['"'])

/-- Wraps a token in double quotes (the pattern with surrounding
quotes in the template source). -/
def qTok (t : Str) : Str := '"' :: (t ++ ['"'])

/-- Wraps a token in wiki brackets. -/
def brTok (t : Str) : Str := ("[[").toList ++ t ++ ("]]").toList

/-- Wraps a token in quotes around wiki brackets. -/
def qbrTok (t : Str) : Str := '"' :: (brTok t ++ ['"'])

/-- The author-token replaces of `applyTemplate`, in source order. -/
def authorPass (isYaml : Bool) (authorValue : Str) (result0 : Str) : Str :=
  if isYaml then
    let a := escapeYamlValue authorValue
    let s1 := replaceAll result0 (qTok tokAuthor) (quoted a)
    let s2 := replaceAll s1 (qbrTok tokAuthor) (quoted (("[[").toList ++ a ++ ("]]").toList))
    let s3 := replaceAll s2 (brTok tokAuthor) (quoted (("[[").toList ++ a ++ ("]]").toList))
    replaceAll s3 tokAuthor (quoted a)
  else
    let s1 := replaceAll result0 (qTok tokAuthor) authorValue
    let s2 := replaceAll s1 (brTok tokAuthor) (("[[").toList ++ authorValue ++ ("]]").toList)
    replaceAll s2 tokAuthor authorValue

/-- The feed-name-token replaces of `applyTemplate` (case-insensitive
patterns), in source order. -/
def feednamePass (isYaml : Bool) (feedName : Str) (r1 : Str) : Str :=
  if isYaml then
    let a := escapeYamlValue feedName
    let s1 := replaceAllCI r1 (qTok tokFeedname) (quoted a)
    let s2 := replaceAllCI s1 (qbrTok tokFeedname) (quoted (("[[").toList ++ a ++ ("]]").toList))
    let s3 := replaceAllCI s2 (brTok tokFeedname) (quoted (("[[").toList ++ a ++ ("]]").toList))
    replaceAllCI s3 tokFeedname (quoted a)
  else
    let s1 := replaceAllCI r1 (qTok tokFeedname) feedName
    let s2 := replaceAllCI s1 (brTok tokFeedname) (("[[").toList ++ feedName ++ ("]]").toList)
    replaceAllCI s2 tokFeedname feedName

/-- The first half of the chained known-token replaces of
`applyTemplate` (title, link, snippet, image), in source order. -/
def knownPassA (item : FeedItem) (isFileName isYaml : Bool) (r2 : Str) : Str :=
  let imageValue :=
    if isFileName then item.imageUrl
    else if isYaml then formatImageForFrontmatter item.imageUrl
    else formatImageForContent item.imageUrl
  let titleValue := item.title
  let r3 := replaceAll r2 tokTitle
    (if isYaml then quoted (escapeYamlValue titleValue) else titleValue)
  let r4 := replaceAll r3 tokLink
    (if isYaml then quoted (escapeYamlValue item.link) else item.link)
  let r5 := replaceAll r4 tokSnippet
    (if isYaml then quoted (escapeYamlValue item.descriptionShort) else item.descriptionShort)
  replaceAll r5 imageTok imageValue

/-- The second half of the chained known-token replaces of
`applyTemplate` (datepub, datesaved, content, tags), in source
order. -/
def knownPassB (env : Env) (item : FeedItem) (isYaml : Bool) (r6 : Str) : Str :=
  let dateSaved := toLocalISOString env env.nowMs
  let datePub :=
    if item.pubDate = [] then []
    else
      match env.jsParseDate item.pubDate with
      | some t => toLocalISOString env t
      | none => item.pubDate
  let tags := tagsOf item.categories
  let r7 := replaceAll r6 tokDatepub datePub
  let r8 := replaceAll r7 tokDatesaved dateSaved
  let r9 := replaceAll r8 tokContent
    (if isYaml then escapeYamlValue item.content else item.content)
  replaceAll r9 tokHashTags tags

/-- The chained known-token replaces of `applyTemplate`
(title, link, snippet, image, datepub, datesaved, content, tags), in
source order. -/
def mainTokenPass (env : Env) (item : FeedItem) (isFileName isYaml : Bool) (r2 : Str) : Str :=
  knownPassB env item isYaml (knownPassA item isFileName isYaml r2)

/-- The final generic placeholder pass of `applyTemplate`. -/
def genericPass (item : FeedItem) (isYaml : Bool) (r10 : Str) : Str :=
  gpGo item isYaml r10.length r10

/-- The substitution chain of `applyTemplate` (everything after the
image-line preparation): the author block, the feed-name block, the
chained known-token replaces and the generic pass, in source order. -/
def substPipeline (env : Env) (item : FeedItem) (isFileName isYaml : Bool)
    (feedName : Str) (result0 : Str) : Str :=
  genericPass item isYaml
    (mainTokenPass env item isFileName isYaml
      (feednamePass isYaml feedName
        (authorPass isYaml item.author result0)))

/-- `applyTemplate` of fileSaver.ts.  The two date placeholders resolve
through the environment clock and date engine; everything else is the
literal chain of replaces of the source, in source order. -/
def applyTemplate (env : Env) (template : Str) (item : FeedItem)
    (isFileName isYaml : Bool) (feedName : Str) : Str :=
  if template = [] then []
  else substPipeline env item isFileName isYaml feedName (prepareTemplate template item)

/-! Configuration data model (main.ts interfaces). -/

inductive TimeUnit where
  | minutes
  | hours
  | days
  | months
deriving DecidableEq, Repr

/-- The per-feed cleanup date-field override, which adds a third
value deferring to the global setting. -/
inductive FeedDateField where
  | global
  | datepub
  | datesaved
deriving DecidableEq, Repr

inductive DateField where
  | datepub
  | datesaved
deriving DecidableEq, Repr

inductive ImageLocation where
  | obsidian
  | vault
  | current
  | subfolder
  | specified
deriving DecidableEq, Repr

structure FeedGroup where
  id : Str
  name : Str
  collapsed : Option Bool
deriving DecidableEq, Repr

structure FeedConfig where
  name : Str
  url : Str
  folder : Str
  enabled : Bool
  lastUpdated : Option Int
  archived : Option Bool
  deleted : Option Bool
  deletedAt : Option Int
  groupId : Option Str
  titleTemplate : Option Str
  frontmatterTemplate : Option Str
  contentTemplate : Option Str
  updateIntervalValue : Option Int
  updateIntervalUnit : Option TimeUnit
  autoCleanupValue : Option Int
  autoCleanupUnit : Option TimeUnit
  autoCleanupDateField : Option FeedDateField
deriving DecidableEq, Repr

structure PluginSettings where
  folderPath : Str
  template : Str
  frontmatterTemplate : Str
  fileNameTemplate : Str
  updateIntervalValue : Option Int
  updateIntervalUnit : Option TimeUnit
  autoCleanupValue : Int
  autoCleanupUnit : TimeUnit
  autoCleanupDateField : DateField
  autoCleanupCheckProperty : Bool
  autoCleanupCheckPropertyName : Str
  feeds : List FeedConfig
  groups : List FeedGroup
  downloadImages : Bool
  imageLocation : ImageLocation
  imagesFolder : Str
  useFeedFolder : Bool
deriving DecidableEq, Repr

/-- JavaScript `a || b` on strings: the empty string is falsy. -/
def jsOrStr (a b : Str) : Str := if a = [] then b else a

/-- JavaScript `a || b` where `a` may also be undefined. -/
def jsOrOptStr (a : Option Str) (b : Str) : Str :=
  match a with
  | some s => jsOrStr s b
  | none => b

/-- `toMilliseconds` of fileSaver.ts. -/
def toMilliseconds (value : Int) (unit : TimeUnit) : Int :=
  let minute : Int := 60 * 1000
  let hour := minute * 60
  let day := hour * 24
  match unit with
  | TimeUnit.minutes => value * minute
  | TimeUnit.hours => value * hour
  | TimeUnit.days => value * day
  | TimeUnit.months => value * day * 30

/-! Vault state.  Files carry their path, text content (`none` models a
file whose read throws, for the catch branches of the frontmatter
readers) and stat times.  The per-folder dedup ledger file is held in a
separate component keyed by its path; its JSON serialization is host
storage work and is modelled structurally. -/

structure FileRec where
  path : Str
  content : Option Str
  mtime : Int
  ctime : Int
deriving DecidableEq, Repr

structure FeedDbEntry where
  savedAt : Int
  deletedAt : Option Int
  deleted : Bool
deriving DecidableEq, Repr

abbrev FeedDb := List (Str × FeedDbEntry)

structure VaultState where
  files : List FileRec
  folders : List Str
  dbs : List (Str × FeedDb)
deriving DecidableEq, Repr

def assocLookup {α : Type} (l : List (Str × α)) (k : Str) : Option α :=
  (l.find? (fun p => p.1 == k)).map (fun p => p.2)

def assocSet {α : Type} (l : List (Str × α)) (k : Str) (v : α) : List (Str × α) :=
  if l.any (fun p => p.1 == k) then l.map (fun p => if p.1 == k then (k, v) else p)
  else l ++ [(k, v)]

def fileExists (st : VaultState) (p : Str) : Bool :=
  st.files.any (fun f => f.path == p)

/-- `vault.getAbstractFileByPath` yields a non-null result for both
files and folders. -/
def abstractFileExists (st : VaultState) (p : Str) : Bool :=
  fileExists st p || st.folders.any (fun q => q == p)

/-- Worker collapsing runs of slashes to a single slash. -/
def slGo : Bool → Str → Str
  | _, [] => []
  | prev, c :: cs =>
    if c = '/' then (if prev then slGo true cs else '/' :: slGo true cs)
    else c :: slGo false cs

/-- Modelled from the spec: the Obsidian `normalizePath` builtin
(external Storage collaborator, not part of this repository): convert
backslashes to slashes, collapse slash runs, and strip leading and
trailing slashes. -/
def normalizePath (p : Str) : Str :=
  let q := slGo false (p.map (fun c => if c = '\\' then '/' else c))
  ((q.dropWhile (fun c => c == '/')).reverse.dropWhile (fun c => c == '/')).reverse

/-- Worker of `ensureFolder`: walks the path parts, creating each
missing intermediate folder. -/
def efGo : VaultState → Str → List Str → VaultState
  | st, _, [] => st
  | st, current, part :: rest =>
    let cur := if current = [] then part else current ++ '/' :: part
    let st1 := if abstractFileExists st cur then st
               else { st with folders := st.folders ++ [cur] }
    efGo st1 cur rest

/-- `ensureFolder` of fileSaver.ts. -/
def ensureFolder (st : VaultState) (folderPath : Str) : VaultState :=
  if folderPath = [] || folderPath = ['/'] then st
  else efGo st [] ((folderPath.splitOn '/').filter (fun p => p ≠ []))

/-! The per-folder dedup ledger (Feed DB of fileSaver.ts). -/

def dbFileNameStr : Str := (".feed-db.json").toList

def dbTtlMs : Int := 90 * 24 * 60 * 60 * 1000

def dbPathOf (folderPath : Str) : Str :=
  normalizePath (folderPath ++ '/' :: dbFileNameStr)

def loadFeedDb (st : VaultState) (folderPath : Str) : FeedDb :=
  (assocLookup st.dbs (dbPathOf folderPath)).getD []

def dbLookup (db : FeedDb) (k : Str) : Option FeedDbEntry :=
  assocLookup db k

def dbSet (db : FeedDb) (k : Str) (e : FeedDbEntry) : FeedDb :=
  assocSet db k e

/-- The pruning predicate of `saveFeedDb`: a deleted entry whose
`deletedAt` is truthy (present and nonzero) and older than the 90-day
TTL is dropped. -/
def shouldPrune (now : Int) (e : FeedDbEntry) : Bool :=
  e.deleted &&
    (match e.deletedAt with
     | some t => decide (t ≠ 0) && decide (now - t > dbTtlMs)
     | none => false)

def pruneDb (now : Int) (db : FeedDb) : FeedDb :=
  db.filter (fun p => !shouldPrune now p.2)

/-- `saveFeedDb` of fileSaver.ts: prune expired deleted entries, then
persist the ledger at its folder-local path. -/
def saveFeedDb (env : Env) (st : VaultState) (folderPath : Str) (db : FeedDb) : VaultState :=
  { st with dbs := assocSet st.dbs (dbPathOf folderPath) (pruneDb env.nowMs db) }

/-! Image handler (imageHandler.ts). -/

def headerLookup (res : RequestResp) (k : Str) : Option Str :=
  assocLookup res.headers k

/-- JavaScript `parseInt(s, 10)`: skip whitespace, take an optional
sign and then leading decimal digits; `none` models NaN. -/
def jsParseInt (s : Str) : Option Int :=
  let t := s.dropWhile jsIsSpace
  let core : Str → Option Nat := fun r =>
    match r.takeWhile isAsciiDigit with
    | [] => none
    | ds => some (digitsToNat ds 0)
  match t with
  | '+' :: r => (core r).map (fun n => (n : Int))
  | '-' :: r => (core r).map (fun n => -(n : Int))
  | r => (core r).map (fun n => (n : Int))

/-- The resolution-tier alternation of the YouTube thumbnail regex, in
source order. -/
def ytAlts : List Str :=
  [("hqdefault").toList, ("mqdefault").toList, ("sddefault").toList,
   ("default").toList, ("hq720").toList, ("maxresdefault").toList]

/-- Tries the tier alternatives at the current position; a tier matches
when it is followed (case-insensitively) by a jpg suffix.  Returns the
original text of the matched suffix and the remainder after it. -/
def tryAltsAt (alts : List Str) (s : Str) : Option (Str × Str) :=
  match alts with
  | [] => none
  | a :: rest =>
    if ciStartsWith a s then
      let after := s.drop a.length
      if ciStartsWith ((".jpg").toList) after then some (after.take 4, after.drop 4)
      else tryAltsAt rest s
    else tryAltsAt rest s

/-- Fuel-driven worker for the tier-replacing regex (no global flag:
only the first match is replaced). -/
def tierGo (target : Str) : Nat → Str → Str
  | 0, s => s
  | _ + 1, [] => []
  | fuel + 1, c :: cs =>
    match tryAltsAt ytAlts (c :: cs) with
    | some (jpg, rest) => target ++ jpg ++ rest
    | none => c :: tierGo target fuel cs

/-- `url.replace(/(hqdefault|mqdefault|sddefault|default|hq720|maxresdefault)(\.jpg)/i, target + dollar-two)`. -/
def tierReplace (url : Str) (target : Str) : Str :=
  tierGo target url.length url

def isYoutubeUrl (url : Str) : Bool :=
  containsSub (("img.youtube.com").toList) url || containsSub (("ytimg.com").toList) url

/-- The probe acceptance test of `upgradeYoutubeThumbnail`: the request
must succeed, report status 200 and a parsed content-length above 5000
(a missing header defaults to the literal 99999; a thrown request or an
unparseable header rejects). -/
def probeOk (env : Env) (u : Str) : Bool :=
  match env.request u with
  | some res =>
    let lenStr := (headerLookup res (("content-length").toList)).getD (("99999").toList)
    res.status == 200 &&
      (match jsParseInt lenStr with
       | some n => decide (n > 5000)
       | none => false)
  | none => false

/-- `upgradeYoutubeThumbnail` of imageHandler.ts. -/
def upgradeYoutubeThumbnail (env : Env) (url : Str) : Str :=
  if !(isYoutubeUrl url) then url
  else
    let maxres := tierReplace url (("maxresdefault").toList)
    if maxres ≠ url && probeOk env maxres then maxres
    else
      let sd := tierReplace url (("sddefault").toList)
      if sd ≠ url && probeOk env sd then sd
      else url

/-- `resolveObsidianAttachmentPath` of imageHandler.ts; the host vault
config is read from the environment (`none` models a vault without the
`getConfig` binding). -/
def resolveObsidianAttachmentPath (env : Env) (currentFileFolderPath : Str) : Str :=
  match env.attachmentConfig with
  | none => []
  | some cfg =>
    if cfg = [] || cfg = ['/'] then []
    else if cfg = ("./").toList then currentFileFolderPath
    else if (("./").toList).isPrefixOf cfg then currentFileFolderPath ++ '/' :: cfg.drop 2
    else cfg

/-- The extension alternation of `resolveImageExtension`, in source
order. -/
def imgExtAlts : List Str :=
  [("jpg").toList, ("jpeg").toList, ("png").toList, ("webp").toList,
   ("gif").toList, ("svg").toList, ("avif").toList]

/-- Tries the extension alternatives right after a dot; the match must
be followed by the end of the string or a question mark. -/
def extAltsAt (alts : List Str) (s : Str) : Option Str :=
  match alts with
  | [] => none
  | a :: rest =>
    if ciStartsWith a s &&
        (let after := s.drop a.length
         after = [] || after.take 1 = ['?']) then
      some (s.take a.length)
    else extAltsAt rest s

/-- Fuel-driven worker scanning for the first dot-extension match. -/
def extScanGo : Nat → Str → Option Str
  | 0, _ => none
  | _ + 1, [] => none
  | fuel + 1, c :: cs =>
    if c = '.' then
      match extAltsAt imgExtAlts cs with
      | some m => some m
      | none => extScanGo fuel cs
    else extScanGo fuel cs

/-- `resolveImageExtension` of imageHandler.ts. -/
def resolveImageExtension (contentType : Str) (url : Str) : Str :=
  if containsSub (("image/jpeg").toList) contentType then ("jpg").toList
  else if containsSub (("image/webp").toList) contentType then ("webp").toList
  else if containsSub (("image/gif").toList) contentType then ("gif").toList
  else if containsSub (("image/svg").toList) contentType then ("svg").toList
  else if containsSub (("image/png").toList) contentType then ("png").toList
  else if containsSub (("image/avif").toList) contentType then ("avif").toList
  else
    match extScanGo url.length url with
    | some m => strToLower m
    | none => ("png").toList

/-- `downloadImageLocally` of imageHandler.ts.  A thrown request or a
non-200 status returns the original remote URL unchanged; otherwise the
image is stored (or found already stored) and a wikilink reference is
returned. -/
def downloadImageLocally (env : Env) (st : VaultState) (url folderPath fileName : Str) :
    Str × VaultState :=
  if url = [] || !((("http").toList).isPrefixOf url) then (url, st)
  else
    match env.request url with
    | none => (url, st)
    | some res =>
      if res.status ≠ 200 then (url, st)
      else
        let st1 := ensureFolder st folderPath
        let ext := resolveImageExtension ((headerLookup res (("content-type").toList)).getD []) url
        let clean := (folderPath.reverse.dropWhile (fun c => c == '/')).reverse
        let pre := if clean ≠ [] then clean ++ ['/'] else []
        let imagePath := pre ++ sanitizeFileName fileName ++ '.' :: ext
        let ref := ("[[").toList ++ imagePath ++ ("]]").toList
        if abstractFileExists st1 imagePath then (ref, st1)
        else (ref, { st1 with files := st1.files ++
                [{ path := imagePath, content := some [], mtime := env.nowMs, ctime := env.nowMs }] })

/-! Persistence layer (fileSaver.ts). -/

/-- `resolveImageFolder` of fileSaver.ts. -/
def resolveImageFolder (env : Env) (settings : PluginSettings) (feedFolderPath : Str) : Str :=
  let baseRSSFolder := jsOrStr settings.folderPath (("RSS").toList)
  match settings.imageLocation with
  | ImageLocation.obsidian => jsOrStr (resolveObsidianAttachmentPath env feedFolderPath) feedFolderPath
  | ImageLocation.vault => []
  | ImageLocation.current => feedFolderPath
  | ImageLocation.subfolder =>
    let subName := jsOrStr settings.imagesFolder (("attachments").toList)
    if settings.useFeedFolder then normalizePath (feedFolderPath ++ '/' :: subName)
    else normalizePath (baseRSSFolder ++ '/' :: subName)
  | ImageLocation.specified => normalizePath (jsOrStr settings.imagesFolder (("attachments").toList))

/-- Resolution of the cleanup date-field: an absent or `global`
per-feed override defers to the global setting. -/
def resolveCleanupDateField (f : Option FeedDateField) (g : DateField) : DateField :=
  match f with
  | none => g
  | some FeedDateField.global => g
  | some FeedDateField.datepub => DateField.datepub
  | some FeedDateField.datesaved => DateField.datesaved

/-- Appends a freshly created text file (`vault.create`). -/
def createTextFile (st : VaultState) (p : Str) (content : Str) (now : Int) : VaultState :=
  { st with files := st.files ++ [{ path := p, content := some content, mtime := now, ctime := now }] }

/-- The dedup-ledger key of an item: its link, else its title, else the
computed file name (the JavaScript or-chain on possibly empty
strings). -/
def itemKeyOf (item : FeedItem) (fileName : Str) : Str :=
  jsOrStr item.link (jsOrStr item.title fileName)

/-- The condition of the pre-save date filter of `saveFeedItem`:
cleanup enabled, the protected-property gate off, a nonempty publish
date, the resolved date-field equal to datepub, and a parseable publish
time strictly below the retention cutoff. -/
def preSaveFilterFires (env : Env) (item : FeedItem) (settings : PluginSettings)
    (feed : FeedConfig) : Bool :=
  let cleanupValue := (feed.autoCleanupValue).getD settings.autoCleanupValue
  let cleanupUnit := (feed.autoCleanupUnit).getD settings.autoCleanupUnit
  let cleanupDateField := resolveCleanupDateField feed.autoCleanupDateField settings.autoCleanupDateField
  if cleanupValue > 0 && !settings.autoCleanupCheckProperty && item.pubDate ≠ [] then
    match cleanupDateField with
    | DateField.datepub =>
      match env.jsParseDate item.pubDate with
      | some pubTime => decide (pubTime < env.nowMs - toMilliseconds cleanupValue cleanupUnit)
      | none => false
    | DateField.datesaved => false
  else false

/-- The file name computed by `saveFeedItem`: the file-name template
(per-feed override, else global, else the title token) rendered in
file-name mode, sanitized, with the markdown extension appended. -/
def computedFileName (env : Env) (item : FeedItem) (settings : PluginSettings)
    (feed : FeedConfig) : Str :=
  sanitizeFileName
    (applyTemplate env (jsOrOptStr feed.titleTemplate (jsOrStr settings.fileNameTemplate tokTitle))
      item true false feed.name) ++ (".md").toList

/-- The destination path computed by `saveFeedItem`. -/
def savedFilePath (env : Env) (item : FeedItem) (folderPath : Str)
    (settings : PluginSettings) (feed : FeedConfig) : Str :=
  normalizePath (normalizePath folderPath ++ '/' :: computedFileName env item settings feed)

/-- `saveFeedItem` of fileSaver.ts, returning the acceptance flag and
the post-state. -/
def saveFeedItem (env : Env) (st : VaultState) (item : FeedItem) (folderPath : Str)
    (settings : PluginSettings) (feed : FeedConfig) : Bool × VaultState :=
  let feedName := feed.name
  let fileName := computedFileName env item settings feed
  let fullFolderPath := normalizePath folderPath
  let filePath := savedFilePath env item folderPath settings feed
  let st1 := ensureFolder st fullFolderPath
  let db := loadFeedDb st1 fullFolderPath
  let itemKey := itemKeyOf item fileName
  let deletedHit :=
    match dbLookup db itemKey with
    | some e => e.deleted
    | none => false
  if deletedHit then (false, st1)
  else if preSaveFilterFires env item settings feed then
    let db1 := dbSet db itemKey { savedAt := 0, deleted := true, deletedAt := some env.nowMs }
    (false, saveFeedDb env st1 fullFolderPath db1)
  else if fileExists st1 filePath then (false, st1)
  else
    let step :=
      if settings.downloadImages && item.imageUrl ≠ [] then
        let imageFolder := resolveImageFolder env settings fullFolderPath
        let st2 := ensureFolder st1 imageFolder
        let dl := downloadImageLocally env st2 item.imageUrl imageFolder
          (sanitizeFileName (jsOrStr item.title (("image").toList)))
        ({ item with imageUrl := dl.1 }, dl.2)
      else (item, st1)
    let item1 := step.1
    let st3 := step.2
    let fm := applyTemplate env (jsOrOptStr feed.frontmatterTemplate settings.frontmatterTemplate)
      item1 false true feedName
    let body := applyTemplate env (jsOrOptStr feed.contentTemplate settings.template)
      item1 false false feedName
    let finalContent := ("---\n").toList ++ fm ++ ("\n---\n\n").toList ++ body
    let st4 := createTextFile st3 filePath finalContent env.nowMs
    let db1 := dbSet db itemKey { savedAt := env.nowMs, deleted := false, deletedAt := none }
    (true, saveFeedDb env st4 fullFolderPath db1)

/-! Frontmatter scanning and the cleanup pass (fileSaver.ts). -/

/-- Splits at the earliest occurrence of a substring: the text before
the occurrence and the text after it. -/
def splitFirstSub (pat : Str) : Str → Option (Str × Str)
  | [] => if pat = [] then some ([], []) else none
  | c :: cs =>
    if pat.isPrefixOf (c :: cs) then some ([], (c :: cs).drop pat.length)
    else
      match splitFirstSub pat cs with
      | some r => some (c :: r.1, r.2)
      | none => none

/-- The frontmatter block regex (dashes, newline, lazy body, newline,
dashes, anchored at the start): returns the captured body. -/
def parseFrontmatterBlock (content : Str) : Option Str :=
  if (("---\n").toList).isPrefixOf content then
    (splitFirstSub (("\n---").toList) (content.drop 4)).map (fun p => p.1)
  else none

/-- Splits a line at its first colon (`line.indexOf(':')`). -/
def splitAtColon (line : Str) : Option (Str × Str) :=
  splitFirstSub [':'] line

def pubDateKeys : List Str :=
  [("upload date").toList, ("date published").toList, ("datepub").toList]

/-- Line scan of `readPubDateFromFrontmatter`: the first line whose
lower-cased key is a publish-date key and whose value parses as a date
yields that date; unparseable hits keep scanning. -/
def readPubDateLines (env : Env) : List Str → Option Int
  | [] => none
  | line :: rest =>
    match splitAtColon line with
    | none => readPubDateLines env rest
    | some kv =>
      let key := strToLower (jsTrim kv.1)
      if pubDateKeys.contains key then
        match env.jsParseDate (jsTrim kv.2) with
        | some t => some t
        | none => readPubDateLines env rest
      else readPubDateLines env rest

/-- `readPubDateFromFrontmatter` of fileSaver.ts; a read failure or a
missing frontmatter block yields none. -/
def readPubDateFromFrontmatter (env : Env) (content : Option Str) : Option Int :=
  match content with
  | none => none
  | some c =>
    match parseFrontmatterBlock c with
    | none => none
    | some fm => readPubDateLines env (fm.splitOn '\n')

/-- Line scan of `isFileProtected`: the first line whose key matches
the property name case-insensitively decides; the file is unprotected
exactly when that value, trimmed and lower-cased, is the literal
true. -/
def isProtectedLines (propName : Str) : List Str → Bool
  | [] => true
  | line :: rest =>
    match splitAtColon line with
    | none => isProtectedLines propName rest
    | some kv =>
      if strToLower (jsTrim kv.1) = strToLower propName then
        !(strToLower (jsTrim kv.2) == ("true").toList)
      else isProtectedLines propName rest

/-- `isFileProtected` of fileSaver.ts: a read failure, a missing
frontmatter block or a missing field all count as protected. -/
def isFileProtected (content : Option Str) (propName : Str) : Bool :=
  match content with
  | none => true
  | some c =>
    match parseFrontmatterBlock c with
    | none => true
    | some fm => isProtectedLines propName (fm.splitOn '\n')

/-- Line scan recovering the item link from a file's frontmatter (first
line whose lower-cased key is link). -/
def readLinkLines : List Str → Option Str
  | [] => none
  | line :: rest =>
    match splitAtColon line with
    | none => readLinkLines rest
    | some kv =>
      if strToLower (jsTrim kv.1) = ("link").toList then some (jsTrim kv.2)
      else readLinkLines rest

def readLinkFromFrontmatter (content : Option Str) : Option Str :=
  match content with
  | none => none
  | some c =>
    match parseFrontmatterBlock c with
    | none => none
    | some fm => readLinkLines (fm.splitOn '\n')

/-- Comparison timestamp of a candidate file: frontmatter publish date
(falling back to creation time) for datepub, modification time for
datesaved. -/
def cleanupFileTime (env : Env) (dateField : DateField) (f : FileRec) : Int :=
  match dateField with
  | DateField.datepub => (readPubDateFromFrontmatter env f.content).getD f.ctime
  | DateField.datesaved => f.mtime

/-- Per-file body of the cleanup loop, acting on the accumulated vault
file list, ledger and ledger-changed flag. -/
def cleanupLoop (env : Env) (cutoff : Int) (dateField : DateField) (useProp : Bool)
    (propName : Str) : List FileRec → List FileRec × FeedDb × Bool → List FileRec × FeedDb × Bool
  | [], acc => acc
  | f :: rest, acc =>
    let files := acc.1
    let db := acc.2.1
    let changed := acc.2.2
    let fileTime := cleanupFileTime env dateField f
    if fileTime ≥ cutoff then cleanupLoop env cutoff dateField useProp propName rest acc
    else if useProp && isFileProtected f.content propName then
      cleanupLoop env cutoff dateField useProp propName rest acc
    else
      let files1 := files.filter (fun g => g.path ≠ f.path)
      let next :=
        match readLinkFromFrontmatter f.content with
        | some l =>
          if l ≠ [] then
            match dbLookup db l with
            | some e => (dbSet db l { e with deleted := true, deletedAt := some env.nowMs }, true)
            | none => (dbSet db l { savedAt := 0, deleted := true, deletedAt := some env.nowMs }, true)
          else (db, changed)
        | none => (db, changed)
      cleanupLoop env cutoff dateField useProp propName rest (files1, next.1, changed || next.2)

/-- `cleanupOldFiles` of fileSaver.ts. -/
def cleanupOldFiles (env : Env) (st : VaultState) (folderPath : Str) (value : Int)
    (unit : TimeUnit) (dateField : DateField) (settingsOpt : Option PluginSettings) : VaultState :=
  let cutoff := env.nowMs - toMilliseconds value unit
  let normalizedFolder := normalizePath folderPath
  if !(abstractFileExists st normalizedFolder) then st
  else
    let usePropertyCheck := (settingsOpt.map (fun s => s.autoCleanupCheckProperty)).getD false
    let propertyName :=
      match settingsOpt with
      | some s => jsOrStr (jsTrim s.autoCleanupCheckPropertyName) (("Mark as Read").toList)
      | none => ("Mark as Read").toList
    let db := loadFeedDb st normalizedFolder
    let cands := st.files.filter (fun f =>
      ((normalizedFolder ++ ['/']).isPrefixOf f.path) && !(dbFileNameStr.isSuffixOf f.path))
    let res := cleanupLoop env cutoff dateField usePropertyCheck propertyName cands (st.files, db, false)
    let st1 := { st with files := res.1 }
    if res.2.2 then saveFeedDb env st1 normalizedFolder res.2.1 else st1

/-! Orchestrator (main.ts). -/

def defaultFolderPath : Str := ("RSS").toList

/-- `sanitizeFolderPath` of main.ts. -/
def sanitizeFolderPath (path : Str) : Str :=
  let t := jsTrim (jsOrStr path defaultFolderPath)
  let c := slGo false t
  let d := if c.getLast? = some '/' then c.dropLast else c
  jsOrStr d defaultFolderPath

/-- `resolveFeedPath` of main.ts. -/
def resolveFeedPath (feed : FeedConfig) (settings : PluginSettings) : Str :=
  let root := sanitizeFolderPath settings.folderPath
  let group : Option FeedGroup :=
    match feed.groupId with
    | some gid => if gid ≠ [] then settings.groups.find? (fun g => g.id == gid) else none
    | none => none
  let feedSub := jsTrim (jsOrStr feed.folder (jsOrStr feed.name (("Untitled").toList)))
  match group with
  | some g => root ++ '/' :: (jsTrim g.name ++ '/' :: feedSub)
  | none => root ++ '/' :: feedSub

/-- `getIntervalMs` of main.ts. -/
def getIntervalMs (settings : PluginSettings) : Int :=
  let value := settings.updateIntervalValue.getD 30
  let unit := settings.updateIntervalUnit.getD TimeUnit.minutes
  let minute : Int := 60 * 1000
  let hour := minute * 60
  let day := hour * 24
  let month := day * 30
  match unit with
  | TimeUnit.minutes => value * minute
  | TimeUnit.hours => value * hour
  | TimeUnit.days => value * day
  | TimeUnit.months => value * month

/-- Registered recurring timers: identifier and interval length, plus
the id the host will hand out next (fresh: larger than every id handed
out so far). -/
structure TimerState where
  intervals : List (Nat × Int)
  nextId : Nat
deriving DecidableEq, Repr

/-- `setupAutoUpdate` of main.ts: clear every stored interval id, then
register one recurring timer exactly when the configured interval is at
least one minute. -/
def setupAutoUpdate (settings : PluginSettings) (ts : TimerState) : TimerState :=
  let ms := getIntervalMs settings
  if ms ≥ 60000 then { intervals := [(ts.nextId, ms)], nextId := ts.nextId + 1 }
  else { intervals := [], nextId := ts.nextId }

/-- The enabled-feed filter of `updateAllFeeds`. -/
def enabledFeedsOf (settings : PluginSettings) : List FeedConfig :=
  settings.feeds.filter (fun f => f.enabled && f.url ≠ [] && !(f.deleted.getD false))

/-- The item loop of `updateAllFeeds`: offer every item to
`saveFeedItem`, counting acceptances. -/
def saveItemsFold (env : Env) (folderPath : Str) (settings : PluginSettings)
    (feed : FeedConfig) (xs : List FeedItem) (init : VaultState × Nat) : VaultState × Nat :=
  xs.foldl
    (fun (a : VaultState × Nat) it =>
      let r := saveFeedItem env a.1 it folderPath settings feed
      (r.2, a.2 + (if r.1 then 1 else 0)))
    init

/-- The per-feed body of the orchestrator loop, with the surrounding
try/catch: a thrown fetch leaves the state untouched, a nullish parse
result skips the feed, and otherwise every item is offered to
`saveFeedItem`, settings are stamped when anything new was saved, and
the per-feed cleanup runs under the resolved retention policy. -/
def processOneFeed (env : Env) (acc : VaultState × PluginSettings) (feed : FeedConfig) :
    VaultState × PluginSettings :=
  let st := acc.1
  let settings := acc.2
  match env.fetchItems feed.url with
  | FetchOutcome.thrown => (st, settings)
  | FetchOutcome.nullish => (st, settings)
  | FetchOutcome.items xs =>
    let folderPath := resolveFeedPath feed settings
    let step := saveItemsFold env folderPath settings feed xs (st, 0)
    let st1 := step.1
    let settings1 :=
      if step.2 > 0 then
        { settings with
          folderPath := sanitizeFolderPath settings.folderPath,
          feeds := settings.feeds.map
            (fun g => if g = feed then { g with lastUpdated := some env.nowMs } else g) }
      else settings
    let cleanupValue := (feed.autoCleanupValue).getD settings1.autoCleanupValue
    let cleanupUnit := (feed.autoCleanupUnit).getD settings1.autoCleanupUnit
    let dfield := resolveCleanupDateField feed.autoCleanupDateField settings1.autoCleanupDateField
    let st2 :=
      if cleanupValue > 0 then
        cleanupOldFiles env st1 folderPath cleanupValue cleanupUnit dfield (some settings1)
      else st1
    (st2, settings1)

/-- The sequential feed loop of `updateAllFeeds`. -/
def updateFeedsLoop (env : Env) : VaultState × PluginSettings → List FeedConfig →
    VaultState × PluginSettings
  | acc, [] => acc
  | acc, feed :: rest => updateFeedsLoop env (processOneFeed env acc feed) rest

/-- `updateAllFeeds` of main.ts (entered with the single-flight guard
free): filter the active feeds, run the loop, then the global cleanup
pass when globally enabled. -/
def updateAllFeeds (env : Env) (st : VaultState) (settings : PluginSettings) :
    VaultState × PluginSettings :=
  let enabled := enabledFeedsOf settings
  if enabled = [] then (st, settings)
  else
    let r := updateFeedsLoop env (st, settings) enabled
    if r.2.autoCleanupValue > 0 then
      (cleanupOldFiles env r.1 (sanitizeFolderPath r.2.folderPath) r.2.autoCleanupValue
        r.2.autoCleanupUnit r.2.autoCleanupDateField (some r.2), r.2)
    else r

/-! Fixtures: the DEFAULT_SETTINGS record of main.ts and small concrete
values used by the closed witness statements. -/

def defaultSettings : PluginSettings := {
  folderPath := ("RSS").toList,
  fileNameTemplate := tokTitle,
  frontmatterTemplate := ("Title: \x7b\x7btitle\x7d\x7d\nCreated Date: \x7b\x7bdatesaved\x7d\x7d\nUpload Date: \x7b\x7bdatepub\x7d\x7d\nImage: \x7b\x7bimage\x7d\x7d\nLink: \x7b\x7blink\x7d\x7d\nAuthor: \x7b\x7bauthor\x7d\x7d").toList,
  template := ("# \x7b\x7btitle\x7d\x7d\n\n\x7b\x7bcontent\x7d\x7d").toList,
  updateIntervalValue := some 30,
  updateIntervalUnit := some TimeUnit.minutes,
  autoCleanupValue := 0,
  autoCleanupUnit := TimeUnit.days,
  autoCleanupDateField := DateField.datesaved,
  autoCleanupCheckProperty := false,
  autoCleanupCheckPropertyName := ("Mark as Read").toList,
  feeds := [],
  groups := [],
  downloadImages := false,
  imageLocation := ImageLocation.obsidian,
  imagesFolder := ("attachments").toList,
  useFeedFolder := true }

/-- An environment whose host calls all fail or return nothing. -/
def inertEnv : Env := {
  nowMs := 0,
  tzOffsetMs := 0,
  jsParseDate := fun _ => none,
  jsToISO := fun _ => [],
  request := fun _ => none,
  attachmentConfig := none,
  fetchItems := fun _ => FetchOutcome.nullish }

def blankFeed : FeedConfig := {
  name := ("F").toList,
  url := ("http://feed").toList,
  folder := [],
  enabled := true,
  lastUpdated := none,
  archived := none,
  deleted := none,
  deletedAt := none,
  groupId := none,
  titleTemplate := none,
  frontmatterTemplate := none,
  contentTemplate := none,
  updateIntervalValue := none,
  updateIntervalUnit := none,
  autoCleanupValue := none,
  autoCleanupUnit := none,
  autoCleanupDateField := none }

def blankItem : FeedItem := {
  title := ("a").toList,
  link := ("http://a").toList,
  content := [],
  description := [],
  descriptionShort := [],
  author := [],
  pubDate := [],
  imageUrl := [],
  categories := [] }

/-! Basic state lemmas. -/

theorem efGo_files (parts : List Str) : ∀ (st : VaultState) (cur : Str),
    (efGo st cur parts).files = st.files := by
  induction parts with
  | nil => intro st cur; rfl
  | cons p rest ih =>
    intro st cur
    simp only [efGo]
    split <;> (rw [ih]; split <;> rfl)

theorem efGo_dbs (parts : List Str) : ∀ (st : VaultState) (cur : Str),
    (efGo st cur parts).dbs = st.dbs := by
  induction parts with
  | nil => intro st cur; rfl
  | cons p rest ih =>
    intro st cur
    simp only [efGo]
    split <;> (rw [ih]; split <;> rfl)

theorem ensureFolder_files (st : VaultState) (p : Str) :
    (ensureFolder st p).files = st.files := by
  unfold ensureFolder
  split
  · rfl
  · exact efGo_files _ _ _

theorem ensureFolder_dbs (st : VaultState) (p : Str) :
    (ensureFolder st p).dbs = st.dbs := by
  unfold ensureFolder
  split
  · rfl
  · exact efGo_dbs _ _ _

/-! Claim C5. -/

/-- Claim C5: for every raw description whose HTML-stripped,
whitespace-collapsed form is longer than 280 characters,
descriptionShort is exactly 280 characters consisting of the first 277
characters plus a 3-character ellipsis; for every shorter input,
descriptionShort equals the stripped and collapsed input verbatim. -/
theorem processDescriptionShort_length_spec (raw : Str) :
    ((jsTrim (collapseWs ' ' (stripTags raw))).length > 280 →
      processDescriptionShort raw =
        (jsTrim (collapseWs ' ' (stripTags raw))).take 277 ++ ("...").toList ∧
      (processDescriptionShort raw).length = 280 ∧ (("...").toList).length = 3) ∧
    ((jsTrim (collapseWs ' ' (stripTags raw))).length ≤ 280 →
      processDescriptionShort raw = jsTrim (collapseWs ' ' (stripTags raw))) := by
  by_cases hraw : raw = []
  · subst hraw
    refine ⟨fun h => absurd h (by decide), fun _ => by decide⟩
  · have hds : processDescriptionShort raw =
        if (jsTrim (collapseWs ' ' (stripTags raw))).length > 280 then
          (jsTrim (collapseWs ' ' (stripTags raw))).take 277 ++ ("...").toList
        else jsTrim (collapseWs ' ' (stripTags raw)) := by
      simp only [processDescriptionShort, processDescription]
      rw [if_neg hraw]
    constructor
    · intro h
      rw [hds, if_pos h]
      refine ⟨rfl, ?_, by decide⟩
      have h3 : (("...").toList).length = 3 := by decide
      rw [List.length_append, List.length_take, h3]
      omega
    · intro h
      rw [hds, if_neg (by omega)]

/-- Witness for C5 at a concrete 300-character description. -/
theorem processDescriptionShort_length_spec_witness :
    (jsTrim (collapseWs ' ' (stripTags (List.replicate 300 'x')))).length > 280 ∧
    processDescriptionShort (List.replicate 300 'x') =
      (jsTrim (collapseWs ' ' (stripTags (List.replicate 300 'x')))).take 277 ++ ("...").toList ∧
    (processDescriptionShort (List.replicate 300 'x')).length = 280 := by
  refine ⟨by decide, ?_, ?_⟩
  · exact ((processDescriptionShort_length_spec (List.replicate 300 'x')).1 (by decide)).1
  · exact ((processDescriptionShort_length_spec (List.replicate 300 'x')).1 (by decide)).2.1

/-! Claim C10. -/

/-- Claim C10: after setupAutoUpdate runs, every previously registered
interval timer is cancelled (no surviving timer carries an old id), and
a new recurring timer is registered if and only if the configured
update interval converts to at least 60000 milliseconds; for any
configured interval under one minute no auto-update timer exists at
all. -/
theorem setupAutoUpdate_interval_threshold (settings : PluginSettings) (ts : TimerState)
    (hfresh : ∀ p ∈ ts.intervals, p.1 < ts.nextId) :
    (∀ p ∈ ts.intervals, ∀ q ∈ (setupAutoUpdate settings ts).intervals, q.1 ≠ p.1) ∧
    ((setupAutoUpdate settings ts).intervals ≠ [] ↔ getIntervalMs settings ≥ 60000) ∧
    (getIntervalMs settings < 60000 → (setupAutoUpdate settings ts).intervals = []) ∧
    (getIntervalMs settings ≥ 60000 →
      (setupAutoUpdate settings ts).intervals = [(ts.nextId, getIntervalMs settings)]) := by
  unfold setupAutoUpdate
  by_cases h : getIntervalMs settings ≥ 60000
  · rw [if_pos h]
    refine ⟨?_, ?_, ?_, ?_⟩
    · intro p hp q hq
      simp only [List.mem_singleton] at hq
      subst hq
      have := hfresh p hp
      omega
    · simp [h]
    · intro hlt; omega
    · intro _; rfl
  · rw [if_neg h]
    refine ⟨?_, ?_, ?_, ?_⟩
    · intro p _ q hq
      simp at hq
    · simp [h]
    · intro _; rfl
    · intro hge; exact absurd hge h

/-- Witness for C10: a fresh timer state with one stale timer and the
default 30-minute interval. -/
theorem setupAutoUpdate_interval_threshold_witness :
    (∀ p ∈ ({ intervals := [(0, 60000)], nextId := 1 } : TimerState).intervals, p.1 < 1) ∧
    (setupAutoUpdate defaultSettings { intervals := [(0, 60000)], nextId := 1 }).intervals =
      [(1, getIntervalMs defaultSettings)] := by
  refine ⟨by decide, ?_⟩
  exact (setupAutoUpdate_interval_threshold defaultSettings
    { intervals := [(0, 60000)], nextId := 1 } (by decide)).2.2.2 (by decide)

/-! Claim C8. -/

def ytUrl : Str := ("https://img.youtube.com/vi/X/default.jpg").toList

/-- Claim C8: for a YouTube thumbnail URL, the resolver first probes
the maxresdefault variant; if that probe reports a content-length under
5000 (or fails), it falls through to the sddefault variant; if that
also fails the size check, it returns the original URL unchanged, and
no probe failure ever propagates to the caller (the result is always
one of the three URLs, for every environment including one whose
requests all throw). -/
theorem upgradeYoutubeThumbnail_tier_fallthrough (env : Env) (url : Str)
    (hyt : isYoutubeUrl url = true)
    (hm : tierReplace url (("maxresdefault").toList) ≠ url)
    (hs : tierReplace url (("sddefault").toList) ≠ url) :
    (probeOk env (tierReplace url (("maxresdefault").toList)) = true →
      upgradeYoutubeThumbnail env url = tierReplace url (("maxresdefault").toList)) ∧
    (probeOk env (tierReplace url (("maxresdefault").toList)) = false →
      probeOk env (tierReplace url (("sddefault").toList)) = true →
      upgradeYoutubeThumbnail env url = tierReplace url (("sddefault").toList)) ∧
    (probeOk env (tierReplace url (("maxresdefault").toList)) = false →
      probeOk env (tierReplace url (("sddefault").toList)) = false →
      upgradeYoutubeThumbnail env url = url) ∧
    (env.request (tierReplace url (("maxresdefault").toList)) = none →
      probeOk env (tierReplace url (("maxresdefault").toList)) = false) ∧
    (∀ r n, env.request (tierReplace url (("maxresdefault").toList)) = some r →
      jsParseInt ((headerLookup r (("content-length").toList)).getD (("99999").toList)) = some n →
      n < 5000 → probeOk env (tierReplace url (("maxresdefault").toList)) = false) := by
  refine ⟨?_, ?_, ?_, ?_, ?_⟩
  · intro hp
    simp at hm hp
    simp [upgradeYoutubeThumbnail, hyt, hm, hp]
  · intro hp1 hp2
    simp at hm hs hp1 hp2
    simp [upgradeYoutubeThumbnail, hyt, hm, hs, hp1, hp2]
  · intro hp1 hp2
    simp at hm hs hp1 hp2
    simp [upgradeYoutubeThumbnail, hyt, hm, hs, hp1, hp2]
  · intro hreq
    simp at hreq
    simp [probeOk, hreq]
  · intro r n hreq hparse hlt
    have hd : decide (n > 5000) = false := by
      simp only [decide_eq_false_iff_not]
      omega
    simp at hreq hparse
    simp [probeOk, hreq, hparse, hd]

/-- Witness for C8: the scenario URL of the spec against an environment
whose probes all throw; the resolver returns the original URL. -/
theorem upgradeYoutubeThumbnail_tier_fallthrough_witness :
    isYoutubeUrl ytUrl = true ∧
    tierReplace ytUrl (("maxresdefault").toList) ≠ ytUrl ∧
    tierReplace ytUrl (("sddefault").toList) ≠ ytUrl ∧
    upgradeYoutubeThumbnail inertEnv ytUrl = ytUrl := by
  refine ⟨by decide, by decide, by decide, ?_⟩
  exact (upgradeYoutubeThumbnail_tier_fallthrough inertEnv ytUrl (by decide) (by decide)
    (by decide)).2.2.1 (by decide) (by decide)

/-! Claims C2 and C9: the deleted-suppression path of saveFeedItem. -/

theorem loadFeedDb_ensureFolder (st : VaultState) (p q : Str) :
    loadFeedDb (ensureFolder st p) q = loadFeedDb st q := by
  unfold loadFeedDb
  rw [ensureFolder_dbs]

/-- Shared helper: when the ledger marks the item's key deleted,
saveFeedItem rejects, writes no file and leaves every ledger
untouched. -/
theorem saveFeedItem_rejects_of_deleted (env : Env) (st : VaultState) (item : FeedItem)
    (folderPath : Str) (settings : PluginSettings) (feed : FeedConfig)
    (h : ∃ e, dbLookup (loadFeedDb st (normalizePath folderPath))
        (itemKeyOf item (computedFileName env item settings feed)) = some e ∧ e.deleted = true) :
    (saveFeedItem env st item folderPath settings feed).1 = false ∧
    (saveFeedItem env st item folderPath settings feed).2.files = st.files ∧
    (saveFeedItem env st item folderPath settings feed).2.dbs = st.dbs := by
  obtain ⟨e, he, hd⟩ := h
  unfold saveFeedItem
  simp only [loadFeedDb_ensureFolder, he, hd]
  simp [ensureFolder_files, ensureFolder_dbs]

/-- Repeated invocations of saveFeedItem on the same item (the state
evolution of re-fetching a feed that still serves it). -/
def iterateSave (env : Env) (item : FeedItem) (folderPath : Str) (settings : PluginSettings)
    (feed : FeedConfig) : Nat → VaultState → VaultState
  | 0, st => st
  | n + 1, st =>
    iterateSave env item folderPath settings feed n
      (saveFeedItem env st item folderPath settings feed).2

/-- Claim C2: for every item whose ledger entry is marked deleted,
saveFeedItem returns rejected (false) before any rendering or file
write — no file is written, no ledger is modified — and on any number
of repeated fetches of a feed still serving the item, the file list and
ledgers stay unchanged, so the deleted item's file is never
recreated. -/
theorem saveFeedItem_deleted_entry_suppresses (env : Env) (st : VaultState) (item : FeedItem)
    (folderPath : Str) (settings : PluginSettings) (feed : FeedConfig)
    (h : ∃ e, dbLookup (loadFeedDb st (normalizePath folderPath))
        (itemKeyOf item (computedFileName env item settings feed)) = some e ∧ e.deleted = true) :
    (saveFeedItem env st item folderPath settings feed).1 = false ∧
    (saveFeedItem env st item folderPath settings feed).2.files = st.files ∧
    (saveFeedItem env st item folderPath settings feed).2.dbs = st.dbs ∧
    (∀ n, (iterateSave env item folderPath settings feed n st).files = st.files ∧
          (iterateSave env item folderPath settings feed n st).dbs = st.dbs) := by
  have base := saveFeedItem_rejects_of_deleted env st item folderPath settings feed h
  refine ⟨base.1, base.2.1, base.2.2, ?_⟩
  have H : ∀ n (st' : VaultState),
      (∃ e, dbLookup (loadFeedDb st' (normalizePath folderPath))
        (itemKeyOf item (computedFileName env item settings feed)) = some e ∧ e.deleted = true) →
      (iterateSave env item folderPath settings feed n st').files = st'.files ∧
      (iterateSave env item folderPath settings feed n st').dbs = st'.dbs := by
    intro n
    induction n with
    | zero => intro st' _; exact ⟨rfl, rfl⟩
    | succ m ih =>
      intro st' h'
      have step := saveFeedItem_rejects_of_deleted env st' item folderPath settings feed h'
      have hdbs : loadFeedDb (saveFeedItem env st' item folderPath settings feed).2
          (normalizePath folderPath) = loadFeedDb st' (normalizePath folderPath) := by
        unfold loadFeedDb
        rw [step.2.2]
      have next := ih (saveFeedItem env st' item folderPath settings feed).2 (by rw [hdbs]; exact h')
      refine ⟨?_, ?_⟩
      · show (iterateSave env item folderPath settings feed (m + 1) st').files = st'.files
        simp only [iterateSave]
        rw [next.1, step.2.1]
      · show (iterateSave env item folderPath settings feed (m + 1) st').dbs = st'.dbs
        simp only [iterateSave]
        rw [next.2, step.2.2]
  exact fun n => H n st h

def stDeletedLink : VaultState := {
  files := [],
  folders := [],
  dbs := [((("RSS/F/.feed-db.json").toList),
           [((("http://a").toList), { savedAt := 0, deletedAt := some 0, deleted := true })])] }

/-- Witness for C2 at a concrete state whose ledger marks the item's
link deleted; two repeated runs leave the file list empty. -/
theorem saveFeedItem_deleted_entry_suppresses_witness :
    (∃ e, dbLookup (loadFeedDb stDeletedLink (normalizePath (("RSS/F").toList)))
        (itemKeyOf blankItem (computedFileName inertEnv blankItem defaultSettings blankFeed)) =
          some e ∧ e.deleted = true) ∧
    (saveFeedItem inertEnv stDeletedLink blankItem (("RSS/F").toList) defaultSettings blankFeed).1 = false ∧
    (iterateSave inertEnv blankItem (("RSS/F").toList) defaultSettings blankFeed 2 stDeletedLink).files = [] := by
  have h : ∃ e, dbLookup (loadFeedDb stDeletedLink (normalizePath (("RSS/F").toList)))
      (itemKeyOf blankItem (computedFileName inertEnv blankItem defaultSettings blankFeed)) =
        some e ∧ e.deleted = true := by
    refine ⟨{ savedAt := 0, deletedAt := some 0, deleted := true }, by decide, rfl⟩
  have main := saveFeedItem_deleted_entry_suppresses inertEnv stDeletedLink blankItem
    (("RSS/F").toList) defaultSettings blankFeed h
  exact ⟨h, main.1, (main.2.2.2 2).1⟩

/-- Claim C9 (implicit): the dedup ledger key for an item is not always
its link — when the link is empty, saveFeedItem keys the ledger entry
(and the deleted-suppression check) by the item's title, and when both
link and title are empty, by the computed file name; two distinct
link-less items with the same title collide on one ledger key, so a
deleted mark under that title suppresses both. -/
theorem saveFeedItem_ledger_key_fallback (env : Env) (st : VaultState) (folderPath : Str)
    (settings : PluginSettings) (feed : FeedConfig) (i1 i2 : FeedItem) :
    (i1.link = [] → i1.title ≠ [] →
      itemKeyOf i1 (computedFileName env i1 settings feed) = i1.title) ∧
    (i1.link = [] → i1.title = [] →
      itemKeyOf i1 (computedFileName env i1 settings feed) =
        computedFileName env i1 settings feed) ∧
    (i1.link = [] → i2.link = [] → i1.title = i2.title → i1.title ≠ [] →
      itemKeyOf i1 (computedFileName env i1 settings feed) =
        itemKeyOf i2 (computedFileName env i2 settings feed)) ∧
    (i1.link = [] → i1.title ≠ [] →
      (∃ e, dbLookup (loadFeedDb st (normalizePath folderPath)) i1.title = some e ∧
        e.deleted = true) →
      (saveFeedItem env st i1 folderPath settings feed).1 = false ∧
      (saveFeedItem env st i1 folderPath settings feed).2.files = st.files) := by
  refine ⟨?_, ?_, ?_, ?_⟩
  · intro hl ht
    simp [itemKeyOf, jsOrStr, hl, ht]
  · intro hl ht
    simp [itemKeyOf, jsOrStr, hl, ht]
  · intro hl1 hl2 hteq ht
    simp only [itemKeyOf, jsOrStr, hl1, hl2, ← hteq]
    simp [ht]
  · intro hl ht h
    have hkey : itemKeyOf i1 (computedFileName env i1 settings feed) = i1.title := by
      simp [itemKeyOf, jsOrStr, hl, ht]
    have h' : ∃ e, dbLookup (loadFeedDb st (normalizePath folderPath))
        (itemKeyOf i1 (computedFileName env i1 settings feed)) = some e ∧ e.deleted = true := by
      rw [hkey]; exact h
    have r := saveFeedItem_rejects_of_deleted env st i1 folderPath settings feed h'
    exact ⟨r.1, r.2.1⟩

def linklessItem1 : FeedItem := { blankItem with link := [], title := ("t").toList }

def linklessItem2 : FeedItem :=
  { blankItem with link := [], title := ("t").toList, author := ("other").toList }

def stDeletedTitle : VaultState := {
  files := [],
  folders := [],
  dbs := [((("RSS/F/.feed-db.json").toList),
           [((("t").toList), { savedAt := 0, deletedAt := some 0, deleted := true })])] }

/-- Witness for C9: two distinct link-less items sharing a title; the
single deleted ledger entry under that title suppresses both. -/
theorem saveFeedItem_ledger_key_fallback_witness :
    linklessItem1 ≠ linklessItem2 ∧
    itemKeyOf linklessItem1 (computedFileName inertEnv linklessItem1 defaultSettings blankFeed) =
      itemKeyOf linklessItem2 (computedFileName inertEnv linklessItem2 defaultSettings blankFeed) ∧
    (saveFeedItem inertEnv stDeletedTitle linklessItem1 (("RSS/F").toList) defaultSettings blankFeed).1 = false ∧
    (saveFeedItem inertEnv stDeletedTitle linklessItem2 (("RSS/F").toList) defaultSettings blankFeed).1 = false := by
  have hdel : ∃ e, dbLookup (loadFeedDb stDeletedTitle (normalizePath (("RSS/F").toList)))
      (linklessItem1.title) = some e ∧ e.deleted = true := by
    refine ⟨{ savedAt := 0, deletedAt := some 0, deleted := true }, by decide, rfl⟩
  have hdel2 : ∃ e, dbLookup (loadFeedDb stDeletedTitle (normalizePath (("RSS/F").toList)))
      (linklessItem2.title) = some e ∧ e.deleted = true := by
    refine ⟨{ savedAt := 0, deletedAt := some 0, deleted := true }, by decide, rfl⟩
  refine ⟨by decide, ?_, ?_, ?_⟩
  · exact (saveFeedItem_ledger_key_fallback inertEnv stDeletedTitle (("RSS/F").toList)
      defaultSettings blankFeed linklessItem1 linklessItem2).2.2.1 rfl rfl rfl (by decide)
  · exact ((saveFeedItem_ledger_key_fallback inertEnv stDeletedTitle (("RSS/F").toList)
      defaultSettings blankFeed linklessItem1 linklessItem2).2.2.2 rfl (by decide) hdel).1
  · exact ((saveFeedItem_ledger_key_fallback inertEnv stDeletedTitle (("RSS/F").toList)
      defaultSettings blankFeed linklessItem2 linklessItem1).2.2.2 rfl (by decide) hdel2).1

/-! Claim C3: the pre-save date filter. -/

theorem assocLookup_cons_ne {α : Type} (p : Str × α) (l : List (Str × α)) (k : Str)
    (h : (p.1 == k) = false) : assocLookup (p :: l) k = assocLookup l k := by
  simp [assocLookup, List.find?, h]

theorem assocLookup_cons_eq {α : Type} (p : Str × α) (l : List (Str × α)) (k : Str)
    (h : (p.1 == k) = true) : assocLookup (p :: l) k = some p.2 := by
  simp [assocLookup, List.find?, h]

theorem assocSet_cons_ne {α : Type} (p : Str × α) (l : List (Str × α)) (k : Str) (v : α)
    (h : (p.1 == k) = false) : assocSet (p :: l) k v = p :: assocSet l k v := by
  by_cases hr : l.any (fun q => q.1 == k)
  · simp [assocSet, List.any_cons, h, hr]
    intro hk
    exact absurd hk (by simpa using h)
  · simp [assocSet, List.any_cons, h, hr]

theorem assocSet_cons_eq {α : Type} (p : Str × α) (l : List (Str × α)) (k : Str) (v : α)
    (h : (p.1 == k) = true) :
    assocSet (p :: l) k v = (k, v) :: l.map (fun q => if q.1 == k then (k, v) else q) := by
  have hany : (p :: l).any (fun q => q.1 == k) = true := by
    simp only [List.any_cons, h, Bool.true_or]
  simp [assocSet, hany, h]
  intro hk
  exact absurd (by simpa using h) hk

theorem assocLookup_assocSet_self {α : Type} (k : Str) (v : α) :
    ∀ l : List (Str × α), assocLookup (assocSet l k v) k = some v := by
  intro l
  induction l with
  | nil => simp [assocSet, assocLookup, List.find?]
  | cons p rest ih =>
    cases hpk : (p.1 == k) with
    | true =>
      rw [assocSet_cons_eq p rest k v hpk]
      exact assocLookup_cons_eq _ _ _ (by simp)
    | false =>
      rw [assocSet_cons_ne p rest k v hpk, assocLookup_cons_ne _ _ _ hpk]
      exact ih

theorem assocLookup_pruneDb_dbSet (now : Int) (k : Str) (e : FeedDbEntry)
    (he : shouldPrune now e = false) :
    ∀ db : FeedDb, assocLookup (pruneDb now (dbSet db k e)) k = some e := by
  intro db
  induction db with
  | nil =>
    show assocLookup (pruneDb now (assocSet [] k e)) k = some e
    simp only [assocSet, List.any_nil, Bool.false_eq_true, if_false, List.nil_append]
    simp [pruneDb, List.filter, he, assocLookup, List.find?]
  | cons p rest ih =>
    cases hpk : (p.1 == k) with
    | true =>
      rw [show dbSet (p :: rest) k e = assocSet (p :: rest) k e from rfl,
        assocSet_cons_eq p rest k e hpk]
      have hkeep : pruneDb now ((k, e) :: rest.map (fun q => if q.1 == k then (k, e) else q)) =
          (k, e) :: pruneDb now (rest.map (fun q => if q.1 == k then (k, e) else q)) := by
        simp [pruneDb, List.filter, he]
      rw [hkeep]
      exact assocLookup_cons_eq _ _ _ (by simp)
    | false =>
      rw [show dbSet (p :: rest) k e = assocSet (p :: rest) k e from rfl,
        assocSet_cons_ne p rest k e hpk]
      cases hp : shouldPrune now p.2 with
      | true =>
        have : pruneDb now (p :: assocSet rest k e) = pruneDb now (assocSet rest k e) := by
          simp [pruneDb, List.filter, hp]
        rw [this]
        exact ih
      | false =>
        have : pruneDb now (p :: assocSet rest k e) = p :: pruneDb now (assocSet rest k e) := by
          simp [pruneDb, List.filter, hp]
        rw [this, assocLookup_cons_ne _ _ _ hpk]
        exact ih

theorem saveFeedDb_files (env : Env) (st : VaultState) (p : Str) (db : FeedDb) :
    (saveFeedDb env st p db).files = st.files := rfl

theorem loadFeedDb_saveFeedDb (env : Env) (st : VaultState) (p : Str) (db : FeedDb) :
    loadFeedDb (saveFeedDb env st p db) p = pruneDb env.nowMs db := by
  simp [loadFeedDb, saveFeedDb, assocLookup_assocSet_self]

/-- Claim C3: for every item with a parseable publish date older than
the resolved retention cutoff, when cleanup is enabled (retention value
positive) without the protected-property gate and the resolved cleanup
date-field is datepub, saveFeedItem marks the item deleted in the
ledger and returns rejected with zero file written. -/
theorem saveFeedItem_presave_filter_marks_deleted (env : Env) (st : VaultState)
    (item : FeedItem) (folderPath : Str) (settings : PluginSettings) (feed : FeedConfig)
    (hv : (feed.autoCleanupValue).getD settings.autoCleanupValue > 0)
    (hgate : settings.autoCleanupCheckProperty = false)
    (hdf : resolveCleanupDateField feed.autoCleanupDateField settings.autoCleanupDateField =
      DateField.datepub)
    (hpd : item.pubDate ≠ [])
    (hparse : ∃ pubTime, env.jsParseDate item.pubDate = some pubTime ∧
      pubTime < env.nowMs - toMilliseconds ((feed.autoCleanupValue).getD settings.autoCleanupValue)
        ((feed.autoCleanupUnit).getD settings.autoCleanupUnit)) :
    (saveFeedItem env st item folderPath settings feed).1 = false ∧
    (saveFeedItem env st item folderPath settings feed).2.files = st.files ∧
    ∃ e, dbLookup (loadFeedDb (saveFeedItem env st item folderPath settings feed).2
        (normalizePath folderPath))
      (itemKeyOf item (computedFileName env item settings feed)) = some e ∧ e.deleted = true := by
  obtain ⟨t, hp, hlt⟩ := hparse
  have hfires : preSaveFilterFires env item settings feed = true := by
    simp only [preSaveFilterFires, hdf]
    rw [if_pos]
    · rw [hp]
      simpa using hlt
    · simp [hv, hgate, hpd]
  have hnp : shouldPrune env.nowMs
      { savedAt := 0, deletedAt := some env.nowMs, deleted := true } = false := by
    simp [shouldPrune, dbTtlMs]
  cases hlook : dbLookup (loadFeedDb st (normalizePath folderPath))
      (itemKeyOf item (computedFileName env item settings feed)) with
  | some e0 =>
    cases hdel : e0.deleted with
    | true =>
      have hres : saveFeedItem env st item folderPath settings feed =
          (false, ensureFolder st (normalizePath folderPath)) := by
        unfold saveFeedItem
        simp [loadFeedDb_ensureFolder, hlook, hdel]
      have h2 : (saveFeedItem env st item folderPath settings feed).2 =
          ensureFolder st (normalizePath folderPath) := by rw [hres]
      refine ⟨by rw [hres], ?_, e0, ?_, hdel⟩
      · rw [h2, ensureFolder_files]
      · rw [h2, loadFeedDb_ensureFolder]
        exact hlook
    | false =>
      have hres : saveFeedItem env st item folderPath settings feed =
          (false, saveFeedDb env (ensureFolder st (normalizePath folderPath))
            (normalizePath folderPath)
            (dbSet (loadFeedDb st (normalizePath folderPath))
              (itemKeyOf item (computedFileName env item settings feed))
              { savedAt := 0, deletedAt := some env.nowMs, deleted := true })) := by
        unfold saveFeedItem
        simp [loadFeedDb_ensureFolder, hlook, hdel, hfires]
      have h2 : (saveFeedItem env st item folderPath settings feed).2 =
          saveFeedDb env (ensureFolder st (normalizePath folderPath))
            (normalizePath folderPath)
            (dbSet (loadFeedDb st (normalizePath folderPath))
              (itemKeyOf item (computedFileName env item settings feed))
              { savedAt := 0, deletedAt := some env.nowMs, deleted := true }) := by rw [hres]
      refine ⟨by rw [hres], ?_, ?_⟩
      · rw [h2, saveFeedDb_files, ensureFolder_files]
      · refine ⟨{ savedAt := 0, deletedAt := some env.nowMs, deleted := true }, ?_, rfl⟩
        rw [h2, loadFeedDb_saveFeedDb]
        exact assocLookup_pruneDb_dbSet env.nowMs _ _ hnp _
  | none =>
    have hres : saveFeedItem env st item folderPath settings feed =
        (false, saveFeedDb env (ensureFolder st (normalizePath folderPath))
          (normalizePath folderPath)
          (dbSet (loadFeedDb st (normalizePath folderPath))
            (itemKeyOf item (computedFileName env item settings feed))
            { savedAt := 0, deletedAt := some env.nowMs, deleted := true })) := by
      unfold saveFeedItem
      simp [loadFeedDb_ensureFolder, hlook, hfires]
    have h2 : (saveFeedItem env st item folderPath settings feed).2 =
        saveFeedDb env (ensureFolder st (normalizePath folderPath))
          (normalizePath folderPath)
          (dbSet (loadFeedDb st (normalizePath folderPath))
            (itemKeyOf item (computedFileName env item settings feed))
            { savedAt := 0, deletedAt := some env.nowMs, deleted := true }) := by rw [hres]
    refine ⟨by rw [hres], ?_, ?_⟩
    · rw [h2, saveFeedDb_files, ensureFolder_files]
    · refine ⟨{ savedAt := 0, deletedAt := some env.nowMs, deleted := true }, ?_, rfl⟩
      rw [h2, loadFeedDb_saveFeedDb]
      exact assocLookup_pruneDb_dbSet env.nowMs _ _ hnp _

def emptyVault : VaultState := { files := [], folders := [], dbs := [] }

def oldEnv : Env := { inertEnv with
  nowMs := 2592000001,
  jsParseDate := fun s => if s = ("2023-01-01").toList then some 0 else none }

def oldItem : FeedItem := { blankItem with pubDate := ("2023-01-01").toList }

def oldSettings : PluginSettings := { defaultSettings with
  autoCleanupValue := 30,
  autoCleanupDateField := DateField.datepub }

/-- Witness for C3: the spec scenario — an item dated 2023-01-01,
cleanup configured for 30 days by datepub, no protected-property gate:
the item is rejected, no file is written, the ledger records it
deleted. -/
theorem saveFeedItem_presave_filter_marks_deleted_witness :
    (saveFeedItem oldEnv emptyVault oldItem (("RSS/F").toList) oldSettings blankFeed).1 = false ∧
    (saveFeedItem oldEnv emptyVault oldItem (("RSS/F").toList) oldSettings blankFeed).2.files = [] ∧
    ∃ e, dbLookup (loadFeedDb
        (saveFeedItem oldEnv emptyVault oldItem (("RSS/F").toList) oldSettings blankFeed).2
        (normalizePath (("RSS/F").toList)))
      (itemKeyOf oldItem (computedFileName oldEnv oldItem oldSettings blankFeed)) = some e ∧
      e.deleted = true := by
  have main := saveFeedItem_presave_filter_marks_deleted oldEnv emptyVault oldItem
    (("RSS/F").toList) oldSettings blankFeed (by decide) rfl (by decide) (by decide)
    ⟨0, by decide, by decide⟩
  exact ⟨main.1, main.2.1, main.2.2⟩

/-! Claim C1.  The pre-save date filter of saveFeedItem runs before the
file-existence check, so an existing file does not prevent the filter
from marking the item deleted in the ledger: the claim's
no-ledger-change part fails in that corner and is proved here in the
amended form; the counterexample below exhibits the corner. -/

/-- Claim C1 (amended): for every item whose destination file path
already exists, saveFeedItem returns rejected (false) without writing
any file; the per-folder ledger is unmodified provided the pre-save
date filter does not fire for the item (it always fires before the
file-existence check when cleanup is enabled without the
protected-property gate, the resolved date-field is datepub, and the
publish date parses below the cutoff). -/
theorem saveFeedItem_existing_file_rejects (env : Env) (st : VaultState) (item : FeedItem)
    (folderPath : Str) (settings : PluginSettings) (feed : FeedConfig)
    (hex : fileExists st (savedFilePath env item folderPath settings feed) = true) :
    (saveFeedItem env st item folderPath settings feed).1 = false ∧
    (saveFeedItem env st item folderPath settings feed).2.files = st.files ∧
    (preSaveFilterFires env item settings feed = false →
      (saveFeedItem env st item folderPath settings feed).2.dbs = st.dbs) := by
  have hex1 : fileExists (ensureFolder st (normalizePath folderPath))
      (savedFilePath env item folderPath settings feed) = true := by
    unfold fileExists
    rw [ensureFolder_files]
    exact hex
  cases hlook : dbLookup (loadFeedDb st (normalizePath folderPath))
      (itemKeyOf item (computedFileName env item settings feed)) with
  | some e0 =>
    cases hdel : e0.deleted with
    | true =>
      have hres : saveFeedItem env st item folderPath settings feed =
          (false, ensureFolder st (normalizePath folderPath)) := by
        unfold saveFeedItem
        simp [loadFeedDb_ensureFolder, hlook, hdel]
      have h2 : (saveFeedItem env st item folderPath settings feed).2 =
          ensureFolder st (normalizePath folderPath) := by rw [hres]
      exact ⟨by rw [hres], by rw [h2, ensureFolder_files], fun _ => by rw [h2, ensureFolder_dbs]⟩
    | false =>
      cases hfires : preSaveFilterFires env item settings feed with
      | true =>
        have hres : saveFeedItem env st item folderPath settings feed =
            (false, saveFeedDb env (ensureFolder st (normalizePath folderPath))
              (normalizePath folderPath)
              (dbSet (loadFeedDb st (normalizePath folderPath))
                (itemKeyOf item (computedFileName env item settings feed))
                { savedAt := 0, deletedAt := some env.nowMs, deleted := true })) := by
          unfold saveFeedItem
          simp [loadFeedDb_ensureFolder, hlook, hdel, hfires]
        have h2 : (saveFeedItem env st item folderPath settings feed).2 =
            saveFeedDb env (ensureFolder st (normalizePath folderPath))
              (normalizePath folderPath)
              (dbSet (loadFeedDb st (normalizePath folderPath))
                (itemKeyOf item (computedFileName env item settings feed))
                { savedAt := 0, deletedAt := some env.nowMs, deleted := true }) := by rw [hres]
        refine ⟨by rw [hres], by rw [h2, saveFeedDb_files, ensureFolder_files], ?_⟩
        intro hff
        simp [hfires] at hff
      | false =>
        have hres : saveFeedItem env st item folderPath settings feed =
            (false, ensureFolder st (normalizePath folderPath)) := by
          unfold saveFeedItem
          simp [loadFeedDb_ensureFolder, hlook, hdel, hfires, hex1]
        have h2 : (saveFeedItem env st item folderPath settings feed).2 =
            ensureFolder st (normalizePath folderPath) := by rw [hres]
        exact ⟨by rw [hres], by rw [h2, ensureFolder_files], fun _ => by rw [h2, ensureFolder_dbs]⟩
  | none =>
    cases hfires : preSaveFilterFires env item settings feed with
    | true =>
      have hres : saveFeedItem env st item folderPath settings feed =
          (false, saveFeedDb env (ensureFolder st (normalizePath folderPath))
            (normalizePath folderPath)
            (dbSet (loadFeedDb st (normalizePath folderPath))
              (itemKeyOf item (computedFileName env item settings feed))
              { savedAt := 0, deletedAt := some env.nowMs, deleted := true })) := by
        unfold saveFeedItem
        simp [loadFeedDb_ensureFolder, hlook, hfires]
      have h2 : (saveFeedItem env st item folderPath settings feed).2 =
          saveFeedDb env (ensureFolder st (normalizePath folderPath))
            (normalizePath folderPath)
            (dbSet (loadFeedDb st (normalizePath folderPath))
              (itemKeyOf item (computedFileName env item settings feed))
              { savedAt := 0, deletedAt := some env.nowMs, deleted := true }) := by rw [hres]
      refine ⟨by rw [hres], by rw [h2, saveFeedDb_files, ensureFolder_files], ?_⟩
      intro hff
      simp [hfires] at hff
    | false =>
      have hres : saveFeedItem env st item folderPath settings feed =
          (false, ensureFolder st (normalizePath folderPath)) := by
        unfold saveFeedItem
        simp [loadFeedDb_ensureFolder, hlook, hfires, hex1]
      have h2 : (saveFeedItem env st item folderPath settings feed).2 =
          ensureFolder st (normalizePath folderPath) := by rw [hres]
      exact ⟨by rw [hres], by rw [h2, ensureFolder_files], fun _ => by rw [h2, ensureFolder_dbs]⟩

/-- A vault already holding the destination file for the witness item
in the feed folder. -/
def fileState : VaultState := {
  files := [{ path := ("RSS/F/a.md").toList, content := some [], mtime := 0, ctime := 0 }],
  folders := [("RSS").toList, ("RSS/F").toList],
  dbs := [] }

/-- Counterexample for C1 as stated: with cleanup enabled (30 days,
datepub, no gate) and an old publish date, saveFeedItem against an
already-existing destination file returns false and writes nothing but
does modify the per-folder ledger (it marks the item deleted), because
the pre-save date filter runs before the file-existence check. -/
theorem saveFeedItem_existing_file_ledger_change_cex :
    fileExists fileState (savedFilePath oldEnv oldItem (("RSS/F").toList) oldSettings blankFeed) =
      true ∧
    (saveFeedItem oldEnv fileState oldItem (("RSS/F").toList) oldSettings blankFeed).1 = false ∧
    (saveFeedItem oldEnv fileState oldItem (("RSS/F").toList) oldSettings blankFeed).2.files =
      fileState.files ∧
    (saveFeedItem oldEnv fileState oldItem (("RSS/F").toList) oldSettings blankFeed).2.dbs ≠
      fileState.dbs := by
  decide

/-- Witness for the amended C1: same existing file, but the date filter
does not fire (cleanup disabled); the ledger is untouched. -/
theorem saveFeedItem_existing_file_rejects_witness :
    fileExists fileState (savedFilePath inertEnv blankItem (("RSS/F").toList) defaultSettings
      blankFeed) = true ∧
    preSaveFilterFires inertEnv blankItem defaultSettings blankFeed = false ∧
    (saveFeedItem inertEnv fileState blankItem (("RSS/F").toList) defaultSettings blankFeed).1 =
      false ∧
    (saveFeedItem inertEnv fileState blankItem (("RSS/F").toList) defaultSettings
      blankFeed).2.files = fileState.files ∧
    (saveFeedItem inertEnv fileState blankItem (("RSS/F").toList) defaultSettings
      blankFeed).2.dbs = fileState.dbs := by
  have main := saveFeedItem_existing_file_rejects inertEnv fileState blankItem
    (("RSS/F").toList) defaultSettings blankFeed (by decide)
  exact ⟨by decide, by decide, main.1, main.2.1, main.2.2 (by decide)⟩

/-! Claim C6: image-line removal.  The `linesOf` decomposition below is
the spec's reading of the multiline regex — a template is a list of
lines, each flagged with whether a line break follows it — against
which the scanner `removeImageLines` is compared. -/

/-- Fuel-driven decomposition of a string into its lines, each paired
with a flag telling whether the line is terminated by a newline. -/
def linesSplit : Nat → Str → List (Str × Bool)
  | 0, _ => []
  | fuel + 1, s =>
    if s = [] then []
    else
      match breakLine s with
      | (line, none) => [(line, false)]
      | (line, some rest) => (line, true) :: linesSplit fuel rest

def linesOf (s : Str) : List (Str × Bool) :=
  linesSplit (s.length + 1) s

/-- Reassembles a line decomposition, reinserting the recorded line
breaks. -/
def joinLines (ls : List (Str × Bool)) : Str :=
  ls.foldr (fun l acc => l.1 ++ (if l.2 then '\n' :: acc else acc)) []

theorem breakLine_rest_lt : ∀ (s : Str) (r : Str), (breakLine s).2 = some r →
    r.length < s.length := by
  intro s
  induction s with
  | nil => intro r h; simp [breakLine] at h
  | cons c cs ih =>
    intro r h
    by_cases hc : c = '\n'
    · simp only [breakLine, hc, if_pos] at h
      cases h
      simp
    · simp only [breakLine, hc, if_neg, ite_false] at h
      have := ih r h
      simp
      omega

theorem breakLine_no_nl : ∀ (s : Str), ∀ c ∈ (breakLine s).1, c ≠ '\n' := by
  intro s
  induction s with
  | nil => intro c hc; simp [breakLine] at hc
  | cons a cs ih =>
    intro c hc
    by_cases ha : a = '\n'
    · simp [breakLine, ha] at hc
    · simp only [breakLine, ha, ite_false] at hc
      rcases List.mem_cons.mp hc with h | h
      · subst h; exact ha
      · exact ih c h

theorem breakLine_of_no_nl : ∀ (s : Str), (∀ c ∈ s, c ≠ '\n') → breakLine s = (s, none) := by
  intro s
  induction s with
  | nil => intro _; rfl
  | cons a cs ih =>
    intro h
    have ha : a ≠ '\n' := h a (List.mem_cons_self a cs)
    have hcs := ih (fun c hc => h c (List.mem_cons_of_mem a hc))
    simp [breakLine, ha, hcs]

theorem breakLine_append (line X : Str) (h : ∀ c ∈ line, c ≠ '\n') :
    breakLine (line ++ '\n' :: X) = (line, some X) := by
  induction line with
  | nil => simp [breakLine]
  | cons a cs ih =>
    have ha : a ≠ '\n' := h a (List.mem_cons_self a cs)
    have hcs := ih (fun c hc => h c (List.mem_cons_of_mem a hc))
    simp [breakLine, ha, hcs]

theorem rilGo_fuel_eq (tok : Str) : ∀ (n : Nat) (s : Str), s.length ≤ n →
    ∀ f1 f2, n < f1 → n < f2 → rilGo tok f1 s = rilGo tok f2 s := by
  intro n
  induction n with
  | zero =>
    intro s hs f1 f2 h1 h2
    have hsnil : s = [] := List.length_eq_zero.mp (Nat.le_zero.mp hs)
    subst hsnil
    obtain ⟨k1, rfl⟩ : ∃ k, f1 = k + 1 := ⟨f1 - 1, by omega⟩
    obtain ⟨k2, rfl⟩ : ∃ k, f2 = k + 1 := ⟨f2 - 1, by omega⟩
    simp [rilGo, breakLine]
  | succ m ih =>
    intro s hs f1 f2 h1 h2
    obtain ⟨k1, rfl⟩ : ∃ k, f1 = k + 1 := ⟨f1 - 1, by omega⟩
    obtain ⟨k2, rfl⟩ : ∃ k, f2 = k + 1 := ⟨f2 - 1, by omega⟩
    simp only [rilGo]
    cases hbl : breakLine s with
    | mk line o =>
      cases o with
      | none => rfl
      | some rest =>
        have hlt : rest.length < s.length := breakLine_rest_lt s rest (by rw [hbl])
        have hle : rest.length ≤ m := by omega
        dsimp only
        rw [ih rest hle k1 k2 (by omega) (by omega)]

theorem removeImageLines_unfold (tok : Str) (s : Str) :
    removeImageLines tok s =
      match breakLine s with
      | (line, none) => if containsSub tok line then [] else line
      | (line, some rest) =>
        (if containsSub tok line then [] else line ++ ['\n']) ++ removeImageLines tok rest := by
  have step : rilGo tok (s.length + 1) s =
      match breakLine s with
      | (line, none) => if containsSub tok line then [] else line
      | (line, some rest) =>
        (if containsSub tok line then [] else line ++ ['\n']) ++ rilGo tok s.length rest := rfl
  show rilGo tok (s.length + 1) s = _
  rw [step]
  cases hbl : breakLine s with
  | mk line o =>
    cases o with
    | none => rfl
    | some rest =>
      have hlt : rest.length < s.length := breakLine_rest_lt s rest (by rw [hbl])
      dsimp only
      congr 1
      exact rilGo_fuel_eq tok rest.length rest le_rfl s.length (rest.length + 1) hlt
        (Nat.lt_succ_self _)

theorem linesSplit_fuel_eq : ∀ (n : Nat) (s : Str), s.length ≤ n →
    ∀ f1 f2, n < f1 → n < f2 → linesSplit f1 s = linesSplit f2 s := by
  intro n
  induction n with
  | zero =>
    intro s hs f1 f2 h1 h2
    have hsnil : s = [] := List.length_eq_zero.mp (Nat.le_zero.mp hs)
    subst hsnil
    obtain ⟨k1, rfl⟩ : ∃ k, f1 = k + 1 := ⟨f1 - 1, by omega⟩
    obtain ⟨k2, rfl⟩ : ∃ k, f2 = k + 1 := ⟨f2 - 1, by omega⟩
    simp [linesSplit]
  | succ m ih =>
    intro s hs f1 f2 h1 h2
    obtain ⟨k1, rfl⟩ : ∃ k, f1 = k + 1 := ⟨f1 - 1, by omega⟩
    obtain ⟨k2, rfl⟩ : ∃ k, f2 = k + 1 := ⟨f2 - 1, by omega⟩
    simp only [linesSplit]
    by_cases hnil : s = []
    · simp [hnil]
    · simp only [hnil, ite_false]
      cases hbl : breakLine s with
      | mk line o =>
        cases o with
        | none => rfl
        | some rest =>
          have hlt : rest.length < s.length := breakLine_rest_lt s rest (by rw [hbl])
          have hle : rest.length ≤ m := by omega
          dsimp only
          rw [ih rest hle k1 k2 (by omega) (by omega)]

theorem linesOf_unfold (s : Str) :
    linesOf s =
      if s = [] then []
      else
        match breakLine s with
        | (line, none) => [(line, false)]
        | (line, some rest) => (line, true) :: linesOf rest := by
  have step : linesSplit (s.length + 1) s =
      if s = [] then []
      else
        match breakLine s with
        | (line, none) => [(line, false)]
        | (line, some rest) => (line, true) :: linesSplit s.length rest := rfl
  show linesSplit (s.length + 1) s = _
  rw [step]
  by_cases hnil : s = []
  · simp [hnil]
  · rw [if_neg hnil, if_neg hnil]
    cases hbl : breakLine s with
    | mk line o =>
      cases o with
      | none => rfl
      | some rest =>
        have hlt : rest.length < s.length := breakLine_rest_lt s rest (by rw [hbl])
        dsimp only
        congr 1
        exact linesSplit_fuel_eq rest.length rest le_rfl s.length (rest.length + 1) hlt
          (Nat.lt_succ_self _)

theorem removeImageLines_nil (tok : Str) : removeImageLines tok [] = [] := by
  rw [removeImageLines_unfold]
  simp [breakLine]

theorem linesOf_nil : linesOf [] = [] := rfl

theorem linesOf_cons (line X : Str) (h : ∀ c ∈ line, c ≠ '\n') :
    linesOf (line ++ '\n' :: X) = (line, true) :: linesOf X := by
  rw [linesOf_unfold]
  have hne : line ++ '\n' :: X ≠ [] := by simp
  rw [if_neg hne, breakLine_append line X h]

theorem linesOf_single (line : Str) (h : ∀ c ∈ line, c ≠ '\n') (hne : line ≠ []) :
    linesOf line = [(line, false)] := by
  rw [linesOf_unfold, if_neg hne, breakLine_of_no_nl line h]

/-- The scanner embedding of the image-line regex agrees with the
spec's line-filter reading: the output is the concatenation of exactly
those lines (with their line breaks) not containing the token. -/
theorem removeImageLines_eq_spec (tok : Str) (s : Str) :
    removeImageLines tok s =
      joinLines ((linesOf s).filter (fun l => !(containsSub tok l.1))) := by
  have H : ∀ n, ∀ s : Str, s.length ≤ n →
      removeImageLines tok s =
        joinLines ((linesOf s).filter (fun l => !(containsSub tok l.1))) := by
    intro n
    induction n with
    | zero =>
      intro s hs
      have hnil : s = [] := List.length_eq_zero.mp (Nat.le_zero.mp hs)
      subst hnil
      rw [removeImageLines_nil, linesOf_nil]
      rfl
    | succ m ih =>
      intro s hs
      rw [removeImageLines_unfold, linesOf_unfold]
      by_cases hnil : s = []
      · subst hnil
        simp [breakLine, joinLines]
      · rw [if_neg hnil]
        cases hbl : breakLine s with
        | mk line o =>
          cases o with
          | none =>
            dsimp only
            cases hct : containsSub tok line with
            | true => simp [hct, joinLines]
            | false => simp [hct, joinLines]
          | some rest =>
            have hlt : rest.length < s.length := breakLine_rest_lt s rest (by rw [hbl])
            have hrec := ih rest (by omega)
            dsimp only
            cases hct : containsSub tok line with
            | true => simp [hct, hrec]
            | false => simp [hct, joinLines, hrec]
  exact H s.length s le_rfl

/-- Every line of the scanner's output is free of the token: lines
containing the token are removed whole, not merely token-stripped. -/
theorem removeImageLines_lines_tokenfree (tok : Str) (s : Str) :
    ∀ l ∈ linesOf (removeImageLines tok s), containsSub tok l.1 = false := by
  have H : ∀ n, ∀ s : Str, s.length ≤ n →
      ∀ l ∈ linesOf (removeImageLines tok s), containsSub tok l.1 = false := by
    intro n
    induction n with
    | zero =>
      intro s hs l hl
      have hnil : s = [] := List.length_eq_zero.mp (Nat.le_zero.mp hs)
      subst hnil
      rw [removeImageLines_nil, linesOf_nil] at hl
      simp at hl
    | succ m ih =>
      intro s hs l hl
      rw [removeImageLines_unfold] at hl
      cases hbl : breakLine s with
      | mk line o =>
        have hnn : ∀ c ∈ line, c ≠ '\n' := by
          have := breakLine_no_nl s
          rw [hbl] at this
          exact this
        rw [hbl] at hl
        cases o with
        | none =>
          dsimp only at hl
          cases hct : containsSub tok line with
          | true =>
            rw [if_pos hct] at hl
            rw [linesOf_nil] at hl
            simp at hl
          | false =>
            rw [if_neg (by rw [hct]; exact Bool.false_ne_true)] at hl
            by_cases hle : line = []
            · rw [hle, linesOf_nil] at hl
              simp at hl
            · rw [linesOf_single line hnn hle] at hl
              simp at hl
              rw [hl]
              exact hct
        | some rest =>
          have hlt : rest.length < s.length := breakLine_rest_lt s rest (by rw [hbl])
          dsimp only at hl
          cases hct : containsSub tok line with
          | true =>
            rw [if_pos hct, List.nil_append] at hl
            exact ih rest (by omega) l hl
          | false =>
            rw [if_neg (by rw [hct]; exact Bool.false_ne_true)] at hl
            rw [List.append_assoc, List.singleton_append] at hl
            rw [linesOf_cons line (removeImageLines tok rest) hnn] at hl
            rcases List.mem_cons.mp hl with h | h
            · rw [h]
              exact hct
            · exact ih rest (by omega) l h
  exact H s.length s le_rfl

/-- Image-line removal is idempotent. -/
theorem removeImageLines_idem (tok : Str) (s : Str) :
    removeImageLines tok (removeImageLines tok s) = removeImageLines tok s := by
  have H : ∀ n, ∀ s : Str, s.length ≤ n →
      removeImageLines tok (removeImageLines tok s) = removeImageLines tok s := by
    intro n
    induction n with
    | zero =>
      intro s hs
      have hnil : s = [] := List.length_eq_zero.mp (Nat.le_zero.mp hs)
      subst hnil
      rw [removeImageLines_nil, removeImageLines_nil]
    | succ m ih =>
      intro s hs
      conv_rhs => rw [removeImageLines_unfold]
      rw [removeImageLines_unfold tok s]
      cases hbl : breakLine s with
      | mk line o =>
        have hnn : ∀ c ∈ line, c ≠ '\n' := by
          have := breakLine_no_nl s
          rw [hbl] at this
          exact this
        cases o with
        | none =>
          dsimp only
          cases hct : containsSub tok line with
          | true =>
            simp [removeImageLines_nil]
          | false =>
            simp only [Bool.false_eq_true, if_false]
            rw [removeImageLines_unfold, breakLine_of_no_nl line hnn]
            simp [hct]
        | some rest =>
          have hlt : rest.length < s.length := breakLine_rest_lt s rest (by rw [hbl])
          have hrec := ih rest (by omega)
          dsimp only
          cases hct : containsSub tok line with
          | true =>
            simpa using hrec
          | false =>
            simp only [Bool.false_eq_true, if_false]
            rw [List.append_assoc, List.singleton_append]
            rw [removeImageLines_unfold, breakLine_append line (removeImageLines tok rest) hnn]
            dsimp only
            simp [hct, hrec]
  exact H s.length s le_rfl

theorem replaceAll_nil (pat rep : Str) : replaceAll [] pat rep = [] := rfl

theorem replaceAllCI_nil (pat rep : Str) : replaceAllCI [] pat rep = [] := rfl

theorem authorPass_nil (isYaml : Bool) (a : Str) : authorPass isYaml a [] = [] := by
  cases isYaml <;> rfl

theorem feednamePass_nil (isYaml : Bool) (f : Str) : feednamePass isYaml f [] = [] := by
  cases isYaml <;> rfl

theorem knownPassA_nil (item : FeedItem) (isFileName isYaml : Bool) :
    knownPassA item isFileName isYaml [] = [] := rfl

theorem knownPassB_nil (env : Env) (item : FeedItem) (isYaml : Bool) :
    knownPassB env item isYaml [] = [] := rfl

theorem mainTokenPass_nil (env : Env) (item : FeedItem) (isFileName isYaml : Bool) :
    mainTokenPass env item isFileName isYaml [] = [] := by
  unfold mainTokenPass
  rw [knownPassA_nil, knownPassB_nil]

theorem genericPass_nil (item : FeedItem) (isYaml : Bool) : genericPass item isYaml [] = [] := rfl

/-- The substitution chain maps the empty template to the empty
output. -/
theorem substPipeline_nil (env : Env) (item : FeedItem) (isFileName isYaml : Bool)
    (feedName : Str) : substPipeline env item isFileName isYaml feedName [] = [] := by
  unfold substPipeline
  rw [authorPass_nil, feednamePass_nil, mainTokenPass_nil, genericPass_nil]

/-- Claim C6: for every template and every item whose imageUrl is
empty, applyTemplate removes each entire line containing the image
token from the output — including its line break, not merely the token
itself — in all three modes: the prepared template is exactly the
concatenation of the token-free lines with their breaks, every
surviving line is token-free, and rendering the original template in
any mode equals rendering the line-filtered template. -/
theorem applyTemplate_image_line_removal (env : Env) (t : Str) (item : FeedItem)
    (feedName : Str) (himg : item.imageUrl = []) :
    prepareTemplate t item =
      joinLines ((linesOf t).filter (fun l => !(containsSub imageTok l.1))) ∧
    (∀ l ∈ linesOf (prepareTemplate t item), containsSub imageTok l.1 = false) ∧
    (∀ isFileName isYaml : Bool,
      applyTemplate env t item isFileName isYaml feedName =
        applyTemplate env (joinLines ((linesOf t).filter (fun l => !(containsSub imageTok l.1))))
          item isFileName isYaml feedName) := by
  have hprep : prepareTemplate t item = removeImageLines imageTok t := by
    simp [prepareTemplate, himg]
  have hspec := removeImageLines_eq_spec imageTok t
  refine ⟨hprep.trans hspec, ?_, ?_⟩
  · rw [hprep]
    exact removeImageLines_lines_tokenfree imageTok t
  · intro isFileName isYaml
    rw [← hspec]
    unfold applyTemplate
    by_cases ht : t = []
    · subst ht
      rw [removeImageLines_nil]
    · rw [if_neg ht]
      by_cases ht2 : removeImageLines imageTok t = []
      · rw [if_pos ht2, hprep, ht2]
        exact substPipeline_nil env item isFileName isYaml feedName
      · rw [if_neg ht2, hprep]
        have hprep2 : prepareTemplate (removeImageLines imageTok t) item =
            removeImageLines imageTok (removeImageLines imageTok t) := by
          simp [prepareTemplate, himg]
        rw [hprep2, removeImageLines_idem]

def imgTemplate : Str :=
  ("Title: \x7b\x7btitle\x7d\x7d\nImage: \x7b\x7bimage\x7d\x7d\nLink: \x7b\x7blink\x7d\x7d").toList

def imglessItem : FeedItem := { blankItem with imageUrl := [] }

/-- Witness for C6: a three-line frontmatter template whose image line
vanishes whole against an item with empty imageUrl, in YAML mode. -/
theorem applyTemplate_image_line_removal_witness :
    imglessItem.imageUrl = [] ∧
    prepareTemplate imgTemplate imglessItem =
      joinLines ((linesOf imgTemplate).filter (fun l => !(containsSub imageTok l.1))) ∧
    applyTemplate inertEnv imgTemplate imglessItem false true [] =
      applyTemplate inertEnv
        (joinLines ((linesOf imgTemplate).filter (fun l => !(containsSub imageTok l.1))))
        imglessItem false true [] := by
  refine ⟨rfl, ?_, ?_⟩
  · exact (applyTemplate_image_line_removal inertEnv imgTemplate imglessItem [] rfl).1
  · exact (applyTemplate_image_line_removal inertEnv imgTemplate imglessItem [] rfl).2.2 false true

/-! Claim C7: the protected-property gate of the cleanup pass. -/

/-- Modelled from the spec: the file's frontmatter contains the named
property with the explicit literal value true (key compared
case-insensitively after trimming, value trimmed and lower-cased).
This is the spec's wording of deletability, compared below against the
source's `isFileProtected`. -/
def specHasExplicitTrue (propName : Str) (content : Str) : Bool :=
  match parseFrontmatterBlock content with
  | none => false
  | some fm =>
    (fm.splitOn '\n').any (fun line =>
      match splitAtColon line with
      | none => false
      | some kv =>
        (strToLower (jsTrim kv.1) == strToLower propName) &&
          (strToLower (jsTrim kv.2) == ("true").toList))

theorem isProtectedLines_false (propName : Str) :
    ∀ ls : List Str, isProtectedLines propName ls = false →
      ls.any (fun line =>
        match splitAtColon line with
        | none => false
        | some kv =>
          (strToLower (jsTrim kv.1) == strToLower propName) &&
            (strToLower (jsTrim kv.2) == ("true").toList)) = true := by
  intro ls
  induction ls with
  | nil => intro h; simp [isProtectedLines] at h
  | cons line rest ih =>
    intro h
    simp only [isProtectedLines] at h
    cases hsp : splitAtColon line with
    | none =>
      simp only [hsp] at h
      have hrec := ih h
      simp only [List.any_cons, hsp, hrec, Bool.or_true]
    | some kv =>
      simp only [hsp] at h
      by_cases hkey : strToLower (jsTrim kv.1) = strToLower propName
      · rw [if_pos hkey] at h
        have hval : (strToLower (jsTrim kv.2) == ("true").toList) = true := by
          cases hv : (strToLower (jsTrim kv.2) == ("true").toList)
          · rw [hv] at h; simp at h
          · rfl
        have hkb : (strToLower (jsTrim kv.1) == strToLower propName) = true := by
          simpa using hkey
        simp only [List.any_cons, hsp, hkb, hval, Bool.and_self, Bool.true_or]
      · rw [if_neg hkey] at h
        have hrec := ih h
        have hkb : (strToLower (jsTrim kv.1) == strToLower propName) = false := by
          simpa using hkey
        simp only [List.any_cons, hsp, hkb, Bool.false_and, hrec, Bool.or_true]

/-- A file the gate judges deletable really carries the property with
the literal value true. -/
theorem specHasExplicitTrue_of_unprotected (propName : Str) (c : Str)
    (h : isFileProtected (some c) propName = false) :
    specHasExplicitTrue propName c = true := by
  cases hfm : parseFrontmatterBlock c with
  | none =>
    simp only [isFileProtected, hfm] at h
    exact absurd h (by decide)
  | some fm =>
    simp only [isFileProtected, hfm] at h
    unfold specHasExplicitTrue
    rw [hfm]
    exact isProtectedLines_false propName _ h

theorem path_unique_eq {l : List FileRec}
    (hnd : l.Pairwise (fun a b => a.path ≠ b.path)) :
    ∀ a ∈ l, ∀ b ∈ l, a.path = b.path → a = b := by
  induction l with
  | nil => intro a ha; cases ha
  | cons x xs ih =>
    have hx := (List.pairwise_cons.mp hnd).1
    have hxs := (List.pairwise_cons.mp hnd).2
    intro a ha b hb hpath
    rcases List.mem_cons.mp ha with rfl | ha'
    · rcases List.mem_cons.mp hb with rfl | hb'
      · rfl
      · exact absurd hpath (hx b hb')
    · rcases List.mem_cons.mp hb with rfl | hb'
      · exact absurd hpath.symm (hx a ha')
      · exact ih hxs a ha' b hb' hpath

/-- A file removed by the cleanup loop (with the gate on) corresponds
to an unprotected candidate at the same path whose timestamp is below
the cutoff. -/
theorem cleanupLoop_remove_sound (env : Env) (cutoff : Int) (dateField : DateField)
    (propName : Str) :
    ∀ (cands : List FileRec) (acc : List FileRec × FeedDb × Bool) (f : FileRec),
      f ∈ acc.1 →
      f ∉ (cleanupLoop env cutoff dateField true propName cands acc).1 →
      ∃ g ∈ cands, g.path = f.path ∧ cleanupFileTime env dateField g < cutoff ∧
        isFileProtected g.content propName = false := by
  intro cands
  induction cands with
  | nil =>
    intro acc f hin hout
    exact absurd hin hout
  | cons g rest ih =>
    intro acc f hin hout
    by_cases h1 : cleanupFileTime env dateField g ≥ cutoff
    · simp only [cleanupLoop, if_pos h1] at hout
      obtain ⟨g', hg', hrest⟩ := ih acc f hin hout
      exact ⟨g', List.mem_cons_of_mem _ hg', hrest⟩
    · cases h2 : isFileProtected g.content propName with
      | true =>
        have hcond : (true && isFileProtected g.content propName) = true := by simp [h2]
        simp only [cleanupLoop, if_neg h1, hcond, if_true] at hout
        obtain ⟨g', hg', hrest⟩ := ih acc f hin hout
        exact ⟨g', List.mem_cons_of_mem _ hg', hrest⟩
      | false =>
        have hcond : (true && isFileProtected g.content propName) = false := by simp [h2]
        simp only [cleanupLoop, if_neg h1, hcond, Bool.false_eq_true, if_false] at hout
        by_cases hpath : f.path = g.path
        · exact ⟨g, List.mem_cons_self _ _, hpath.symm, by omega, h2⟩
        · have hin' : f ∈ acc.1.filter (fun x => decide (x.path ≠ g.path)) :=
            List.mem_filter.mpr ⟨hin, by simpa using hpath⟩
          obtain ⟨g', hg', hrest⟩ := ih _ f hin' hout
          exact ⟨g', List.mem_cons_of_mem _ hg', hrest⟩

/-- A protected file survives the cleanup loop when the gate is on. -/
theorem cleanupLoop_keeps_protected (env : Env) (cutoff : Int) (dateField : DateField)
    (propName : Str) (base : List FileRec)
    (hnd : base.Pairwise (fun a b => a.path ≠ b.path)) :
    ∀ (cands : List FileRec) (acc : List FileRec × FeedDb × Bool),
      (∀ x ∈ cands, x ∈ base) →
      ∀ f, f ∈ acc.1 → f ∈ base → isFileProtected f.content propName = true →
      f ∈ (cleanupLoop env cutoff dateField true propName cands acc).1 := by
  intro cands
  induction cands with
  | nil =>
    intro acc _ f hin _ _
    exact hin
  | cons g rest ih =>
    intro acc hsub f hin hbase hprot
    have hsub' : ∀ x ∈ rest, x ∈ base := fun x hx => hsub x (List.mem_cons_of_mem _ hx)
    by_cases h1 : cleanupFileTime env dateField g ≥ cutoff
    · simp only [cleanupLoop, if_pos h1]
      exact ih acc hsub' f hin hbase hprot
    · cases h2 : isFileProtected g.content propName with
      | true =>
        have hcond : (true && isFileProtected g.content propName) = true := by simp [h2]
        simp only [cleanupLoop, if_neg h1, hcond, if_true]
        exact ih acc hsub' f hin hbase hprot
      | false =>
        have hcond : (true && isFileProtected g.content propName) = false := by simp [h2]
        simp only [cleanupLoop, if_neg h1, hcond, Bool.false_eq_true, if_false]
        have hpath : f.path ≠ g.path := by
          intro hp
          have : f = g := path_unique_eq hnd f hbase g (hsub g (List.mem_cons_self _ _)) hp
          rw [this, h2] at hprot
          exact absurd hprot Bool.false_ne_true
        have hin' : f ∈ acc.1.filter (fun x => decide (x.path ≠ g.path)) :=
          List.mem_filter.mpr ⟨hin, by simpa using hpath⟩
        exact ih _ hsub' f hin' hbase hprot

/-- Claim C7: during cleanup with the protected-property gate
configured, a file is deleted only when its frontmatter contains the
named property with the explicit literal value true (its content is
readable, the gate judges it unprotected, and a property line with the
literal value true exists); a protected file — missing frontmatter
block, missing field, non-true value, or read error — is never removed,
and the protected verdict in those cases is stated explicitly. -/
theorem cleanup_protected_gate_only_true_deleted (env : Env) (st : VaultState)
    (folderPath : Str) (value : Int) (unit : TimeUnit) (dateField : DateField)
    (settings : PluginSettings)
    (hgate : settings.autoCleanupCheckProperty = true)
    (hnd : st.files.Pairwise (fun a b => a.path ≠ b.path)) :
    (∀ f ∈ st.files,
      f ∉ (cleanupOldFiles env st folderPath value unit dateField (some settings)).files →
      ∃ c, f.content = some c ∧
        isFileProtected f.content
          (jsOrStr (jsTrim settings.autoCleanupCheckPropertyName) (("Mark as Read").toList)) =
          false ∧
        specHasExplicitTrue
          (jsOrStr (jsTrim settings.autoCleanupCheckPropertyName) (("Mark as Read").toList)) c =
          true) ∧
    (∀ f ∈ st.files,
      isFileProtected f.content
        (jsOrStr (jsTrim settings.autoCleanupCheckPropertyName) (("Mark as Read").toList)) =
        true →
      f ∈ (cleanupOldFiles env st folderPath value unit dateField (some settings)).files) ∧
    (∀ p : Str, isFileProtected none p = true) ∧
    (∀ p : Str, ∀ c : Str, parseFrontmatterBlock c = none →
      isFileProtected (some c) p = true) := by
  have hprop : (∀ p : Str, isFileProtected none p = true) ∧
      (∀ p : Str, ∀ c : Str, parseFrontmatterBlock c = none →
        isFileProtected (some c) p = true) := by
    constructor
    · intro p; rfl
    · intro p c hc
      simp only [isFileProtected, hc]
  cases habs : abstractFileExists st (normalizePath folderPath) with
  | false =>
    have hpost : cleanupOldFiles env st folderPath value unit dateField (some settings) = st := by
      unfold cleanupOldFiles
      simp [habs]
    refine ⟨?_, ?_, hprop.1, hprop.2⟩
    · intro f hf hout
      rw [hpost] at hout
      exact absurd hf hout
    · intro f hf _
      rw [hpost]
      exact hf
  | true =>
    have hpost : (cleanupOldFiles env st folderPath value unit dateField (some settings)).files =
        (cleanupLoop env (env.nowMs - toMilliseconds value unit) dateField true
          (jsOrStr (jsTrim settings.autoCleanupCheckPropertyName) (("Mark as Read").toList))
          (st.files.filter (fun f =>
            (((normalizePath folderPath) ++ ['/']).isPrefixOf f.path) &&
            !(dbFileNameStr.isSuffixOf f.path)))
          (st.files, loadFeedDb st (normalizePath folderPath), false)).1 := by
      unfold cleanupOldFiles
      have husep : ((some settings).map (fun s => s.autoCleanupCheckProperty)).getD false =
          true := by simp [hgate]
      simp only [habs, Bool.not_true, Bool.false_eq_true, if_false, husep]
      split
      · rw [saveFeedDb_files]
      · rfl
    refine ⟨?_, ?_, hprop.1, hprop.2⟩
    · intro f hf hout
      rw [hpost] at hout
      obtain ⟨g, hg, hpath, _, hunprot⟩ := cleanupLoop_remove_sound env _ _ _ _ _ f hf hout
      have hgbase : g ∈ st.files := List.mem_of_mem_filter hg
      have hfg : g = f := path_unique_eq hnd g hgbase f hf hpath
      subst hfg
      cases hc : g.content with
      | none => rw [hc] at hunprot; rw [hprop.1 _] at hunprot; simp at hunprot
      | some c =>
        rw [hc] at hunprot
        exact ⟨c, rfl, hunprot, specHasExplicitTrue_of_unprotected _ c hunprot⟩
    · intro f hf hprot
      rw [hpost]
      exact cleanupLoop_keeps_protected env _ _ _ st.files hnd _ _
        (fun x hx => List.mem_of_mem_filter hx) f hf hf hprot

def gateSettings : PluginSettings := { defaultSettings with autoCleanupCheckProperty := true }

def readFile : FileRec := {
  path := ("RSS/F/read.md").toList,
  content := some (("---\nMark as Read: true\n---\nbody").toList),
  mtime := 0, ctime := 0 }

def keptFile : FileRec := {
  path := ("RSS/F/keep.md").toList,
  content := some (("---\nTitle: x\n---\nbody").toList),
  mtime := 0, ctime := 0 }

def gateState : VaultState := {
  files := [readFile, keptFile],
  folders := [("RSS").toList, ("RSS/F").toList],
  dbs := [] }

def cleanEnv : Env := { inertEnv with nowMs := 1000000 }

/-- Witness for C7: two expired files under the gate — the one whose
frontmatter carries the property with the literal value true is
deleted; the one without the field survives. -/
theorem cleanup_protected_gate_only_true_deleted_witness :
    gateSettings.autoCleanupCheckProperty = true ∧
    (cleanupOldFiles cleanEnv gateState (("RSS/F").toList) 1 TimeUnit.minutes
      DateField.datesaved (some gateSettings)).files = [keptFile] ∧
    keptFile ∈ (cleanupOldFiles cleanEnv gateState (("RSS/F").toList) 1 TimeUnit.minutes
      DateField.datesaved (some gateSettings)).files := by
  refine ⟨rfl, by decide, ?_⟩
  exact (cleanup_protected_gate_only_true_deleted cleanEnv gateState (("RSS/F").toList) 1
    TimeUnit.minutes DateField.datesaved gateSettings rfl (by decide)).2.1 keptFile (by decide)
    (by decide)

/-! Claim C4: error isolation and folder independence in the feed
loop. -/

/-- saveFeedItem only ever appends files (with image download off):
existing files are never removed or overwritten. -/
theorem saveFeedItem_files_append (env : Env) (st : VaultState) (item : FeedItem)
    (folderPath : Str) (settings : PluginSettings) (feed : FeedConfig)
    (hdl : settings.downloadImages = false) :
    ∃ added : List FileRec,
      (saveFeedItem env st item folderPath settings feed).2.files = st.files ++ added := by
  unfold saveFeedItem
  simp only [hdl, Bool.false_and, Bool.false_eq_true, if_false]
  split
  · exact ⟨[], by simp [ensureFolder_files]⟩
  · split
    · exact ⟨[], by simp [saveFeedDb_files, ensureFolder_files]⟩
    · split
      · exact ⟨[], by simp [ensureFolder_files]⟩
      · simp only [saveFeedDb_files, createTextFile, ensureFolder_files]
        exact ⟨_, rfl⟩

/-- The item loop only ever appends files. -/
theorem saveItemsFold_append (env : Env) (folderPath : Str) (settings : PluginSettings)
    (feed : FeedConfig) (hdl : settings.downloadImages = false) :
    ∀ (xs : List FeedItem) (st : VaultState) (n : Nat),
      ∃ added, (saveItemsFold env folderPath settings feed xs (st, n)).1.files =
        st.files ++ added := by
  intro xs
  induction xs with
  | nil => intro st n; exact ⟨[], by simp [saveItemsFold]⟩
  | cons x rest ih =>
    intro st n
    obtain ⟨a1, h1⟩ := saveFeedItem_files_append env st x folderPath settings feed hdl
    obtain ⟨a2, h2⟩ := ih (saveFeedItem env st x folderPath settings feed).2
      (n + (if (saveFeedItem env st x folderPath settings feed).1 then 1 else 0))
    refine ⟨a1 ++ a2, ?_⟩
    have hstep : saveItemsFold env folderPath settings feed (x :: rest) (st, n) =
        saveItemsFold env folderPath settings feed rest
          ((saveFeedItem env st x folderPath settings feed).2,
           n + (if (saveFeedItem env st x folderPath settings feed).1 then 1 else 0)) := rfl
    rw [hstep, h2, h1, List.append_assoc]

/-- processOneFeed only ever appends files when image download is off
and the feed's resolved retention is disabled; it also leaves the
settings fields it does not stamp untouched. -/
theorem processOneFeed_files_append (env : Env) (acc : VaultState × PluginSettings)
    (feed : FeedConfig)
    (hdl : acc.2.downloadImages = false)
    (hcl : (feed.autoCleanupValue).getD acc.2.autoCleanupValue ≤ 0) :
    (∃ added, (processOneFeed env acc feed).1.files = acc.1.files ++ added) ∧
    (processOneFeed env acc feed).2.downloadImages = acc.2.downloadImages ∧
    (processOneFeed env acc feed).2.autoCleanupValue = acc.2.autoCleanupValue := by
  unfold processOneFeed
  cases hf : env.fetchItems feed.url with
  | thrown => exact ⟨⟨[], by simp⟩, rfl, rfl⟩
  | nullish => exact ⟨⟨[], by simp⟩, rfl, rfl⟩
  | items xs =>
    obtain ⟨added, hadd⟩ := saveItemsFold_append env (resolveFeedPath feed acc.2) acc.2 feed hdl
      xs acc.1 0
    dsimp only
    by_cases hcount : (saveItemsFold env (resolveFeedPath feed acc.2) acc.2 feed xs (acc.1, 0)).2 > 0
    · rw [if_pos hcount]
      refine ⟨⟨added, ?_⟩, ?_, ?_⟩
      · dsimp only
        split
        next h =>
          have h' : (feed.autoCleanupValue).getD acc.2.autoCleanupValue > 0 := h
          exact absurd h' (by omega)
        next _ => exact hadd
      · rfl
      · rfl
    · rw [if_neg hcount]
      refine ⟨⟨added, ?_⟩, ?_, ?_⟩
      · dsimp only
        split
        next h =>
          have h' : (feed.autoCleanupValue).getD acc.2.autoCleanupValue > 0 := h
          exact absurd h' (by omega)
        next _ => exact hadd
      · rfl
      · rfl

/-- The feed loop only ever appends files (image download off, all
resolved retention disabled): one feed never deletes or overwrites
another feed's saved files. -/
theorem updateFeedsLoop_append (env : Env) :
    ∀ (feeds : List FeedConfig) (acc : VaultState × PluginSettings),
      acc.2.downloadImages = false →
      (∀ feed ∈ feeds, (feed.autoCleanupValue).getD acc.2.autoCleanupValue ≤ 0) →
      ∃ added, (updateFeedsLoop env acc feeds).1.files = acc.1.files ++ added := by
  intro feeds
  induction feeds with
  | nil => intro acc _ _; exact ⟨[], by simp [updateFeedsLoop]⟩
  | cons feed rest ih =>
    intro acc hdl hcl
    have hstep := processOneFeed_files_append env acc feed hdl (hcl feed (List.mem_cons_self _ _))
    obtain ⟨a1, h1⟩ := hstep.1
    have hdl' : (processOneFeed env acc feed).2.downloadImages = false := by
      rw [hstep.2.1]; exact hdl
    obtain ⟨a2, h2⟩ := ih (processOneFeed env acc feed) hdl'
      (fun f hf => by rw [hstep.2.2]; exact hcl f (List.mem_cons_of_mem _ hf))
    refine ⟨a1 ++ a2, ?_⟩
    have hun : updateFeedsLoop env acc (feed :: rest) =
        updateFeedsLoop env (processOneFeed env acc feed) rest := rfl
    rw [hun, h2, h1, List.append_assoc]

/-- Claim C4: an exception thrown while fetching or processing one feed
is caught inside the per-feed loop and does not prevent any subsequent
enabled feed from being fetched, processed, and saved — the loop state
handed to the remaining feeds is exactly the state before the failing
feed; and (with image download off and retention disabled) the loop
only appends files, so feeds sharing no links populate their own
folders independently: no feed's processing removes or overwrites the
files another feed saved. -/
theorem updateFeeds_error_isolation (env : Env) (st : VaultState) (settings : PluginSettings)
    (feedA : FeedConfig) (rest : List FeedConfig) :
    (env.fetchItems feedA.url = FetchOutcome.thrown →
      updateFeedsLoop env (st, settings) (feedA :: rest) =
        updateFeedsLoop env (st, settings) rest) ∧
    (settings.downloadImages = false →
      (∀ feed ∈ feedA :: rest, (feed.autoCleanupValue).getD settings.autoCleanupValue ≤ 0) →
      ∃ added, (updateFeedsLoop env (st, settings) (feedA :: rest)).1.files =
        st.files ++ added) := by
  constructor
  · intro hthrow
    have hskip : processOneFeed env (st, settings) feedA = (st, settings) := by
      unfold processOneFeed
      rw [hthrow]
    show updateFeedsLoop env (processOneFeed env (st, settings) feedA) rest = _
    rw [hskip]
  · intro hdl hcl
    exact updateFeedsLoop_append env (feedA :: rest) (st, settings) hdl hcl

def tinySettings : PluginSettings := { defaultSettings with
  frontmatterTemplate := ("t").toList,
  template := ("b").toList }

def feedA2 : FeedConfig := { blankFeed with
  name := ("A").toList, url := ("http://a-feed").toList, folder := ("A").toList }

def feedB2 : FeedConfig := { blankFeed with
  name := ("B").toList, url := ("http://b-feed").toList, folder := ("B").toList }

def twoFeedEnv : Env := { inertEnv with
  fetchItems := fun u =>
    if u = ("http://b-feed").toList then FetchOutcome.items [blankItem]
    else FetchOutcome.thrown }

/-- Witness for C4: feed A's fetch throws, feed B still saves its item
into its own folder — the two-feed run equals the one-feed run. -/
theorem updateFeeds_error_isolation_witness :
    twoFeedEnv.fetchItems feedA2.url = FetchOutcome.thrown ∧
    updateFeedsLoop twoFeedEnv (emptyVault, tinySettings) [feedA2, feedB2] =
      updateFeedsLoop twoFeedEnv (emptyVault, tinySettings) [feedB2] ∧
    fileExists (updateFeedsLoop twoFeedEnv (emptyVault, tinySettings) [feedA2, feedB2]).1
      (("RSS/B/a.md").toList) = true := by
  refine ⟨by decide, ?_, by decide⟩
  exact (updateFeeds_error_isolation twoFeedEnv emptyVault tinySettings feedA2 [feedB2]).1
    (by decide)

end SuperRss
